import Mathlib

/-!
# Verification of the AutoPanel Design routing and digital-twin core

Shallow embedding of `src/utils/AutoRouter.ts` (grid construction, 3D A*
search, waypoint optimization, collision detection, DIN-rail snapping) and of
the Zustand digital-twin store (`removeComponent`, `addConnection`, `addWire`,
`updateComponentPhysicalPosition`, ...) from the repository, together with
proofs and refutations of the specification's claims about them.

Conventions of the embedding:
* JavaScript numbers that hold world coordinates (millimetres) are modelled as
  rationals `ℚ`; grid indices are integers `Int` (they are produced by
  `Math.floor` and compared against array bounds).
* `Infinity` (the initial `g`/`f` of a grid node) is modelled as `none` in an
  `Option Nat`.
* The mutable per-node search bookkeeping (`g`, `h`, `f`, `parent`) that the
  source stores on the grid nodes is carried explicitly in the search state as
  a map `Coord → NodeData`; node identity is its coordinate triple.
* The `while` loops of the source terminate for real; here they are written
  with an explicit fuel of `width*height*depth + 1`, which is never exhausted
  (each iteration moves a fresh in-bounds cell to the closed set).
* Ids generated by the source from `Date.now()`/`Math.random()` are passed as
  explicit arguments.
-/

/-- A 3D world position in millimetres (source `Position3D`, fields `x y z`). -/
structure Pos3 where
  x : ℚ
  y : ℚ
  z : ℚ
deriving DecidableEq

/-- A 2D schematic position (source `{ x: number; y: number }`). -/
structure Pos2 where
  x : ℚ
  y : ℚ
deriving DecidableEq

/-- A waypoint of a routed wire (source `Waypoint`). -/
structure Waypoint where
  position : Pos3
  isControlPoint : Bool
deriving DecidableEq

/-- A DIN rail of the panel (source `DinRailConfig`). -/
structure DinRailConfig where
  id : String
  position : Pos3
  length : ℚ
  orientation : String
  maxModules : Int
deriving DecidableEq

/-- The enclosure/panel (source `PanelConfig`; the optional `cableDucts` field
is never read by the routed code and is omitted). -/
structure PanelConfig where
  id : String
  width : ℚ
  height : ℚ
  depth : ℚ
  dinRails : List DinRailConfig
deriving DecidableEq

/-- A logical pin of a component definition (source `LogicalPin`). -/
structure LogicalPin where
  id : String
  label : String
  type : String
  componentId : String
  relativePosition : Pos2
deriving DecidableEq

/-- Physical dimensions of a component definition (source
`PhysicalDimensions`; the optional `weight` is never read and is omitted). -/
structure PhysicalDimensions where
  width : ℚ
  height : ℚ
  depth : ℚ
  dinRailModules : Nat
deriving DecidableEq

/-- A catalog component definition (source `ComponentDefinition`).  Only the
fields that the modelled operations read are kept: `id`, `type` (the enum
value string), `logicalPins` and `dimensions`; the purely presentational
fields (`manufacturer`, `displayName`, `modelPath`, ...) are never read by the
store or router code. -/
structure ComponentDefinition where
  id : String
  type : String
  logicalPins : List LogicalPin
  dimensions : PhysicalDimensions
deriving DecidableEq

/-- A physical pin of an instance (source `PhysicalPin`): the pin offset
relative to the component origin and the computed world coordinate. -/
structure PhysicalPin where
  logicalPinId : String
  position : Pos3
  connectionPoint : Pos3
deriving DecidableEq

/-- A placed/unplaced component instance (source `ComponentInstance`). -/
structure ComponentInstance where
  instanceId : String
  definitionId : String
  label : String
  schematicPosition : Pos2
  physicalPosition : Pos3
  isPhysicallyPlaced : Bool
  physicalPins : List PhysicalPin
  dinRailSlot : Option Int
deriving DecidableEq

/-- A logical connection between two pins (source `LogicalConnection`). -/
structure LogicalConnection where
  id : String
  fromPinId : String
  toPinId : String
  wireType : String
  label : Option String
deriving DecidableEq

/-- A physical wire record (source `WireInstance`). -/
structure WireInstance where
  id : String
  logicalConnectionId : String
  waypoints : List Waypoint
  wireType : String
  color : String
  thickness : ℚ
  routingMethod : String
  length : Option ℚ
deriving DecidableEq

/-- The routing context handed to `routeWire` (source `RoutingContext`). -/
structure RoutingContext where
  panel : PanelConfig
  components : List ComponentInstance
  gridResolution : ℚ
deriving DecidableEq

-- ============================================================================
-- GRID-BASED A* PATHFINDING (src/utils/AutoRouter.ts)
-- ============================================================================

/-- Integer grid coordinates of a cell.  The source's `GridNode` also carries
the mutable search bookkeeping; that part lives in `NodeData` below. -/
structure Coord where
  x : Int
  y : Int
  z : Int
deriving DecidableEq

/-- The mutable search bookkeeping of a grid node: cost from start `g`,
heuristic `h`, total cost `f`, and parent pointer.  `none` for `g`/`f` is the
source's `Infinity`. -/
structure NodeData where
  g : Option Nat
  h : Nat
  f : Option Nat
  parent : Option Coord
deriving DecidableEq

/-- Initial bookkeeping of every node (`g: Infinity, h: 0, f: Infinity,
parent: null` in `createGrid`). -/
def initNodeData : NodeData := ⟨none, 0, none, none⟩

/-- The occupancy grid: cell counts per axis and the obstacle flags.  The
source represents it as a nested array `GridNode[][][]`; a cell is identified
by its coordinates, so the obstacle part is a predicate on coordinates. -/
structure Grid where
  width : Nat
  height : Nat
  depth : Nat
  blocked : Coord → Bool

/-- `true` iff `c` indexes an existing cell of `grid`; the source reads
`grid[x]?.[y]?.[z]`, which is defined exactly for `0 ≤ i < length` on each
axis. -/
def inBounds (grid : Grid) (c : Coord) : Bool :=
  decide (0 ≤ c.x ∧ c.x < (grid.width : Int) ∧ 0 ≤ c.y ∧ c.y < (grid.height : Int)
    ∧ 0 ≤ c.z ∧ c.z < (grid.depth : Int))

/-- Embeds `createGrid(panel, components, resolution)`: the grid is sized
`ceil(dimension/resolution)` per axis, and the nested marking loops block the
clamped bounding-box range of every physically placed component, so a cell is
an obstacle iff some placed component's clamped range covers it. -/
def createGrid (panel : PanelConfig) (components : List ComponentInstance)
    (_resolution : ℚ) : Grid :=
  let resolution := _resolution
  let width := (⌈panel.width / resolution⌉).toNat
  let height := (⌈panel.height / resolution⌉).toNat
  let depth := (⌈panel.depth / resolution⌉).toNat
  { width := width, height := height, depth := depth,
    blocked := fun c =>
      components.any (fun comp =>
        comp.isPhysicallyPlaced &&
        (let minX := ⌊(comp.physicalPosition.x - panel.width / 2) / resolution⌋
         let maxX := ⌈(comp.physicalPosition.x + panel.width / 2) / resolution⌉
         let minY := ⌊comp.physicalPosition.y / resolution⌋
         let maxY := ⌈(comp.physicalPosition.y + 100) / resolution⌉
         let minZ := ⌊(comp.physicalPosition.z + panel.depth / 2) / resolution⌋
         let maxZ := ⌈(comp.physicalPosition.z + panel.depth / 2 + 50) / resolution⌉
         decide (max 0 minX ≤ c.x ∧ c.x < min (width : Int) maxX
           ∧ max 0 minY ≤ c.y ∧ c.y < min (height : Int) maxY
           ∧ max 0 minZ ≤ c.z ∧ c.z < min (depth : Int) maxZ))) }

/-- Manhattan distance heuristic (source `heuristic`). -/
def heuristic (a b : Coord) : Nat :=
  (a.x - b.x).natAbs + (a.y - b.y).natAbs + (a.z - b.z).natAbs

/-- The six axis-aligned neighbour offsets, in the source's order. -/
def directions : List Coord :=
  [⟨1, 0, 0⟩, ⟨-1, 0, 0⟩, ⟨0, 1, 0⟩, ⟨0, -1, 0⟩, ⟨0, 0, 1⟩, ⟨0, 0, -1⟩]

/-- In-bounds Manhattan neighbours of a node, in the source's direction order
(source `getManhattanNeighbors`). -/
def getManhattanNeighbors (grid : Grid) (node : Coord) : List Coord :=
  directions.filterMap (fun dir =>
    let n : Coord := ⟨node.x + dir.x, node.y + dir.y, node.z + dir.z⟩
    if inBounds grid n then some n else none)

/-- The mutable search state: the open list (in insertion order — `push`
appends and `splice` preserves relative order), the closed set (in insertion
order), and the per-node bookkeeping. -/
structure AState where
  openSet : List Coord
  closedSet : List Coord
  nd : Coord → NodeData

/-- Pointwise update of the bookkeeping map (a mutation of one grid node in
the source). -/
def updateNd (nd : Coord → NodeData) (c : Coord) (v : NodeData) : Coord → NodeData :=
  fun d => if d = c then v else nd d

/-- JavaScript `<` on `f` costs where `none` is `Infinity`:
`Infinity < x` is false and `x < Infinity` is true for finite `x`. -/
def fLt : Option Nat → Option Nat → Bool
  | none, _ => false
  | some _, none => true
  | some a, some b => decide (a < b)

/-- JavaScript `>=` on `g` costs where `none` is `Infinity`. -/
def gGe : Option Nat → Option Nat → Bool
  | none, _ => true
  | some _, none => false
  | some a, some b => decide (b ≤ a)

/-- The open-set scan of the source (`for i = 1; ...; if (openSet[i].f <
openSet[currentIndex].f) currentIndex = i`): starting from candidate index
`cur`, examine indices `i, i+1, ...` and switch only on strictly smaller `f`.
The first argument list drives the recursion structurally; it is the
`l.drop i` suffix, so exactly the indices `i ≤ j < l.length` are examined. -/
def scanLowest (nd : Coord → NodeData) (l : List Coord) :
    List Coord → Nat → Nat → Nat
  | [], _, cur => cur
  | _ :: rest, i, cur =>
    if fLt (nd (l.getD i ⟨0, 0, 0⟩)).f (nd (l.getD cur ⟨0, 0, 0⟩)).f then
      scanLowest nd l rest (i + 1) i
    else
      scanLowest nd l rest (i + 1) cur

/-- Index of the node with the lowest `f` score in the open list; on ties the
scan keeps the earlier index. -/
def findLowestFIndex (nd : Coord → NodeData) (l : List Coord) : Nat :=
  scanLowest nd l (l.drop 1) 1 0

/-- Path reconstruction by following parent pointers from the goal and
prepending (source `reconstructPath`, the `unshift` loop).  `fuel` bounds the
chain length; the search always calls it with more fuel than any parent chain
is long. -/
def reconstructPath (nd : Coord → NodeData) : Coord → Nat → List Coord
  | _, 0 => []
  | c, fuel + 1 =>
    match (nd c).parent with
    | none => [c]
    | some p => reconstructPath nd p fuel ++ [c]

/-- Processing of one neighbour inside the main loop of `aStar`: skip closed
or obstacle nodes; otherwise push fresh nodes, skip nodes whose recorded `g`
is already at most `current.g + 1`, and (re)assign `parent`, `g`, `h`, `f` in
the remaining cases — exactly the source's control flow. -/
def relaxNeighbor (grid : Grid) (endC current : Coord) (s : AState) (n : Coord) : AState :=
  if n ∈ s.closedSet ∨ grid.blocked n then s
  else
    let tentativeG := (s.nd current).g.map (· + 1)
    let h := heuristic n endC
    let newData : NodeData := ⟨tentativeG, h, tentativeG.map (· + h), some current⟩
    if n ∈ s.openSet then
      if gGe tentativeG (s.nd n).g then s
      else { s with nd := updateNd s.nd n newData }
    else
      { openSet := s.openSet ++ [n], closedSet := s.closedSet,
        nd := updateNd s.nd n newData }

/-- Result of one iteration of the `while (openSet.length > 0)` loop. -/
inductive StepResult where
  | found : List Coord → StepResult
  | noPath : StepResult
  | next : AState → StepResult
deriving Inhabited

/-- One iteration of the main loop of `aStar`: pop the lowest-`f` node, return
the reconstructed path if it is the goal, otherwise move it to the closed set
and relax its Manhattan neighbours.  `reconFuel` is the fuel handed to
`reconstructPath`. -/
def aStarStep (grid : Grid) (endC : Coord) (reconFuel : Nat) (s : AState) : StepResult :=
  match s.openSet with
  | [] => .noPath
  | _ :: _ =>
    let idx := findLowestFIndex s.nd s.openSet
    let current := s.openSet.getD idx ⟨0, 0, 0⟩
    if current = endC then
      .found (reconstructPath s.nd current reconFuel)
    else
      let s1 : AState := { openSet := s.openSet.eraseIdx idx,
                           closedSet := s.closedSet ++ [current], nd := s.nd }
      .next ((getManhattanNeighbors grid current).foldl (relaxNeighbor grid endC current) s1)

/-- The main loop of `aStar`, driven by fuel.  The source's loop terminates
because every iteration moves a fresh cell into the closed set; the fuel the
search supplies (`width*height*depth + 1`) therefore never runs out. -/
def aStarLoop (grid : Grid) (endC : Coord) (reconFuel : Nat) : Nat → AState → List Coord
  | 0, _ => []
  | fuel + 1, s =>
    match aStarStep grid endC reconFuel s with
    | .found p => p
    | .noPath => []
    | .next s' => aStarLoop grid endC reconFuel fuel s'

/-- Number of cells of the grid. -/
def totalCells (grid : Grid) : Nat := grid.width * grid.height * grid.depth

/-- The search state after the initialisation of `aStar` (`startNode.g = 0`,
`startNode.h = heuristic(start, end)`, `startNode.f = startNode.h`,
`openSet.push(startNode)`). -/
def initState (start endC : Coord) : AState :=
  { openSet := [start], closedSet := [],
    nd := updateNd (fun _ => initNodeData) start
      ⟨some 0, heuristic start endC, some (heuristic start endC), none⟩ }

/-- Embeds `aStar(grid, start, end, resolution)`.  If either endpoint does not
index an existing cell (`!startNode || !endNode`) the function logs an error
and returns the empty path; otherwise it runs the main loop. -/
def aStar (grid : Grid) (start endC : Coord) (_resolution : ℚ) : List Coord :=
  if inBounds grid start && inBounds grid endC then
    aStarLoop grid endC (totalCells grid + 1) (totalCells grid + 1) (initState start endC)
  else []

/-- Embeds `worldToGrid(pos, resolution, panel)` (integer floor division). -/
def worldToGrid (pos : Pos3) (resolution : ℚ) (panel : PanelConfig) : Coord :=
  ⟨⌊(pos.x + panel.width / 2) / resolution⌋,
   ⌊pos.y / resolution⌋,
   ⌊(pos.z + panel.depth / 2) / resolution⌋⟩

/-- Embeds `pathToWaypoints(path, resolution, panel)`. -/
def pathToWaypoints (path : List Coord) (resolution : ℚ) (panel : PanelConfig) :
    List Waypoint :=
  path.map (fun node =>
    ⟨⟨(node.x : ℚ) * resolution - panel.width / 2,
      (node.y : ℚ) * resolution,
      (node.z : ℚ) * resolution - panel.depth / 2⟩, false⟩)

/-- Direction vector between two waypoints (the `dir1`/`dir2` computation of
`optimizePath`). -/
def wpDir (a b : Waypoint) : Pos3 :=
  ⟨b.position.x - a.position.x, b.position.y - a.position.y, b.position.z - a.position.z⟩

/-- The interior scan of `optimizePath`: keep `curr` iff the incoming and
outgoing direction vectors differ; the last point is always kept. -/
def optimizeGo (prev : Waypoint) : List Waypoint → List Waypoint
  | [] => []
  | [last] => [last]
  | curr :: next :: rest =>
    if wpDir prev curr ≠ wpDir curr next then
      curr :: optimizeGo curr (next :: rest)
    else
      optimizeGo curr (next :: rest)

/-- Embeds `optimizePath(waypoints)`: lists of at most two points are returned
unchanged; otherwise the first point is kept and the interior is filtered by
direction change, keeping the last point. -/
def optimizePath (waypoints : List Waypoint) : List Waypoint :=
  if waypoints.length ≤ 2 then waypoints
  else
    match waypoints with
    | [] => waypoints
    | w0 :: rest => w0 :: optimizeGo w0 rest

/-- Embeds `routeWire(startPos, endPos, context)`: build the grid, convert the
endpoints, run A*, convert back to world coordinates, optimize. -/
def routeWire (startPos endPos : Pos3) (context : RoutingContext) : List Waypoint :=
  let grid := createGrid context.panel context.components context.gridResolution
  let startGrid := worldToGrid startPos context.gridResolution context.panel
  let endGrid := worldToGrid endPos context.gridResolution context.panel
  let path := aStar grid startGrid endGrid context.gridResolution
  let waypoints := pathToWaypoints path context.gridResolution context.panel
  optimizePath waypoints

-- ============================================================================
-- COLLISION DETECTION AND DIN-RAIL SNAPPING (src/utils/AutoRouter.ts)
-- ============================================================================

/-- An axis-aligned box (`THREE.Box3`). -/
structure Box3 where
  min : Pos3
  max : Pos3
deriving DecidableEq

/-- `THREE.Box3.intersectsBox`: the three.js implementation rules the boxes
apart with six strict comparisons, so boxes that merely touch are reported as
intersecting (non-strict overlap). -/
def intersectsBox (a b : Box3) : Bool :=
  if b.max.x < a.min.x ∨ b.min.x > a.max.x
      ∨ b.max.y < a.min.y ∨ b.min.y > a.max.y
      ∨ b.max.z < a.min.z ∨ b.min.z > a.max.z then
    false
  else true

/-- The bounding box `checkCollision` builds for a component: assumed 50 mm
width/depth around the position and 100 mm height. -/
def componentBox (c : ComponentInstance) : Box3 :=
  ⟨⟨c.physicalPosition.x - 25, c.physicalPosition.y, c.physicalPosition.z - 25⟩,
   ⟨c.physicalPosition.x + 25, c.physicalPosition.y + 100, c.physicalPosition.z + 25⟩⟩

/-- Embeds `checkCollision(component, existingComponents)`: unplaced
candidates never collide; otherwise the candidate's box is tested with
`intersectsBox` against every other placed instance, skipping itself and
unplaced instances. -/
def checkCollision (component : ComponentInstance)
    (existingComponents : List ComponentInstance) : Bool :=
  if component.isPhysicallyPlaced then
    let box1 := componentBox component
    existingComponents.any (fun other =>
      if other.instanceId = component.instanceId ∨ other.isPhysicallyPlaced = false then
        false
      else
        intersectsBox box1 (componentBox other))
  else false

/-- JavaScript `Math.round`: round half toward positive infinity. -/
def jsRound (q : ℚ) : Int := ⌊q + 1 / 2⌋

/-- Result record of `snapToDinRail`. -/
structure SnapResult where
  position : Pos3
  railId : String
  slot : Int
deriving DecidableEq

/-- The rail scan of `snapToDinRail`: take the first rail (in `panel.dinRails`
order) whose y- and z-distances from the position are both strictly below the
30 mm snap distance, and round the x-offset to the nearest multiple of the
17.5 mm module width.  The slot index is not clamped. -/
def snapScan (position : Pos3) : List DinRailConfig → Option SnapResult
  | [] => none
  | rail :: rest =>
    if |position.y - rail.position.y| < 30 ∧ |position.z - rail.position.z| < 30 then
      let slot := jsRound ((position.x - rail.position.x) / (35 / 2))
      some ⟨⟨rail.position.x + (slot : ℚ) * (35 / 2), rail.position.y, rail.position.z⟩,
        rail.id, slot⟩
    else snapScan position rest

/-- Embeds `snapToDinRail(position, panel)`. -/
def snapToDinRail (position : Pos3) (panel : PanelConfig) : Option SnapResult :=
  snapScan position panel.dinRails

-- ============================================================================
-- DIGITAL TWIN STORE (the Zustand store of the repository)
-- ============================================================================

/-- The store state (`StoreState` without the action closures).  The UI
selection fields and project metadata are carried for completeness; the
modelled operations read and write only the entity lists and the panel. -/
structure Store where
  projectId : String
  projectName : String
  componentLibrary : List ComponentDefinition
  components : List ComponentInstance
  logicalConnections : List LogicalConnection
  wires : List WireInstance
  panel : PanelConfig
  selectedComponentId : Option String
  selectedConnectionId : Option String
deriving DecidableEq

/-- The initial panel of the store: 800×600×200 mm with three horizontal DIN
rails of 40 modules each. -/
def initialPanel : PanelConfig :=
  { id := "panel-1", width := 800, height := 600, depth := 200,
    dinRails :=
      [⟨"dinrail-1", ⟨-350, 200, -50⟩, 700, "horizontal", 40⟩,
       ⟨"dinrail-2", ⟨-350, 100, -50⟩, 700, "horizontal", 40⟩,
       ⟨"dinrail-3", ⟨-350, 0, -50⟩, 700, "horizontal", 40⟩] }

/-- The initial store state. -/
def initialStore : Store :=
  { projectId := "new-project", projectName := "Untitled Panel Design",
    componentLibrary := [], components := [], logicalConnections := [],
    wires := [], panel := initialPanel,
    selectedComponentId := none, selectedConnectionId := none }

/-- Helper `getDefinition(definitionId)`: first library entry with that id. -/
def getDefinition (s : Store) (definitionId : String) : Option ComponentDefinition :=
  s.componentLibrary.find? (fun d => d.id = definitionId)

/-- Update the first list element satisfying `p` (the source's
`state.xs.find(...)` followed by mutation of the found element). -/
def updateFirst (p : α → Bool) (f : α → α) : List α → List α
  | [] => []
  | x :: xs => if p x then f x :: xs else x :: updateFirst p f xs

/-- Embeds `addComponent(definition, schematicPosition)`.  The generated
instance id (`Date.now()`/`Math.random()` in the source) is an explicit
argument.  Physical pins start with offset `(relX*width, relY*height, 0)` and
a zero connection point; the instance starts unplaced at the origin. -/
def addComponent (s : Store) (definition : ComponentDefinition)
    (schematicPosition : Pos2) (instanceId : String) : Store :=
  let physicalPins : List PhysicalPin := definition.logicalPins.map (fun logicalPin =>
    { logicalPinId := logicalPin.id,
      position := ⟨logicalPin.relativePosition.x * definition.dimensions.width,
                   logicalPin.relativePosition.y * definition.dimensions.height, 0⟩,
      connectionPoint := ⟨0, 0, 0⟩ })
  let newComponent : ComponentInstance :=
    { instanceId := instanceId, definitionId := definition.id,
      label := definition.type ++ " " ++
        toString ((s.components.filter (fun c => c.definitionId = definition.id)).length + 1),
      schematicPosition := schematicPosition,
      physicalPosition := ⟨0, 0, 0⟩, isPhysicallyPlaced := false,
      physicalPins := physicalPins, dinRailSlot := none }
  { s with components := s.components ++ [newComponent] }

/-- Embeds `removeComponent(instanceId)`.  Faithful to the source: the
components list is filtered FIRST, then the definition is looked up through a
`find` on the already-filtered list (which never finds the removed instance,
so the fallback id `""` is used); connections are filtered only when that
lookup succeeds, and finally wires are kept iff their connection id still
occurs among the (possibly unchanged) connections. -/
def removeComponent (s : Store) (instanceId : String) : Store :=
  let components1 := s.components.filter (fun c => c.instanceId ≠ instanceId)
  let foundDefId : String :=
    match components1.find? (fun c => c.instanceId = instanceId) with
    | some c => c.definitionId
    | none => ""
  let componentDef := getDefinition s foundDefId
  let connections1 :=
    match componentDef with
    | some d =>
      let pinIds := d.logicalPins.map (fun p => p.id)
      s.logicalConnections.filter (fun conn =>
        ¬ pinIds.contains conn.fromPinId ∧ ¬ pinIds.contains conn.toPinId)
    | none => s.logicalConnections
  let connectionIds := connections1.map (fun c => c.id)
  let wires1 := s.wires.filter (fun w => connectionIds.contains w.logicalConnectionId)
  { s with components := components1, logicalConnections := connections1, wires := wires1 }

/-- The per-component mutation performed by `updateComponentPhysicalPosition`:
the instance gets the new position (and slot if supplied); its pins' world
coordinates are recomputed as `position + pin.position` only when the
definition lookup (against the pre-update store) succeeds. -/
def applyPositionUpdate (s : Store) (position : Pos3) (dinRailSlot : Option Int)
    (component : ComponentInstance) : ComponentInstance :=
  let component1 :=
    { component with
      physicalPosition := position,
      dinRailSlot := match dinRailSlot with
        | some slot => some slot
        | none => component.dinRailSlot }
  match getDefinition s component1.definitionId with
  | some _ =>
    { component1 with physicalPins := component1.physicalPins.map (fun pin =>
        { pin with connectionPoint :=
            ⟨position.x + pin.position.x, position.y + pin.position.y,
             position.z + pin.position.z⟩ }) }
  | none => component1

/-- Embeds `updateComponentPhysicalPosition(instanceId, position,
dinRailSlot?)`: the first matching instance is replaced by its
`applyPositionUpdate` image. -/
def updateComponentPhysicalPosition (s : Store) (instanceId : String)
    (position : Pos3) (dinRailSlot : Option Int) : Store :=
  let components1 := updateFirst (fun c => decide (c.instanceId = instanceId))
    (applyPositionUpdate s position dinRailSlot) s.components
  { s with components := components1 }

/-- Embeds `getWireColor(wireType)`. -/
def getWireColor (wireType : String) : String :=
  if wireType = "POWER" then "#FF0000"
  else if wireType = "SIGNAL" then "#0000FF"
  else if wireType = "GROUND" then "#00FF00"
  else "#888888"

/-- Embeds `addWire(logicalConnectionId)` (the generated wire id is an
explicit argument): if the connection exists, push an unrouted wire (empty
waypoints) carrying the connection's wire type; otherwise do nothing. -/
def addWire (s : Store) (logicalConnectionId : String) (wireId : String) : Store :=
  match s.logicalConnections.find? (fun c => c.id = logicalConnectionId) with
  | none => s
  | some connection =>
    let newWire : WireInstance :=
      { id := wireId, logicalConnectionId := logicalConnectionId,
        waypoints := [], wireType := connection.wireType,
        color := getWireColor connection.wireType, thickness := 2,
        routingMethod := "manhattan", length := none }
    { s with wires := s.wires ++ [newWire] }

/-- Embeds `addConnection(fromPinId, toPinId)` (generated ids are explicit
arguments): unconditionally push the connection with wire type `"SIGNAL"`,
then create its wire via `addWire`.  The source performs no validation of the
pin ids. -/
def addConnection (s : Store) (fromPinId toPinId : String)
    (connectionId wireId : String) : Store :=
  let s1 := { s with logicalConnections := s.logicalConnections ++
      [{ id := connectionId, fromPinId := fromPinId, toPinId := toPinId,
         wireType := "SIGNAL", label := none }] }
  addWire s1 connectionId wireId

/-- `true` iff `pinId` is a pin of some component instance present in the
store (each instance carries one physical pin per logical pin of its
definition). -/
def pinResolves (s : Store) (pinId : String) : Bool :=
  s.components.any (fun c => c.physicalPins.any (fun p => p.logicalPinId = pinId))

-- ============================================================================
-- SHARED EXAMPLE INPUTS
-- ============================================================================

/-- A logical pin `p1` belonging to definition `d1`. -/
def pinP1 : LogicalPin := ⟨"p1", "L1", "POWER", "d1", ⟨0, 0⟩⟩

/-- A logical pin `p2` belonging to definition `d2`. -/
def pinP2 : LogicalPin := ⟨"p2", "A1", "POWER", "d2", ⟨0, 0⟩⟩

/-- A single-pin catalog definition `d1`. -/
def defD1 : ComponentDefinition := ⟨"d1", "MCB", [pinP1], ⟨50, 100, 50, 1⟩⟩

/-- A single-pin catalog definition `d2`. -/
def defD2 : ComponentDefinition := ⟨"d2", "RELAY", [pinP2], ⟨50, 100, 50, 1⟩⟩

/-- An instance `c1` of `d1` whose only pin is `p1` (zero offset). -/
def instC1 : ComponentInstance :=
  ⟨"c1", "d1", "MCB 1", ⟨0, 0⟩, ⟨0, 0, 0⟩, false, [⟨"p1", ⟨0, 0, 0⟩, ⟨0, 0, 0⟩⟩], none⟩

/-- An instance `c2` of `d2` whose only pin is `p2`. -/
def instC2 : ComponentInstance :=
  ⟨"c2", "d2", "RELAY 1", ⟨0, 0⟩, ⟨0, 0, 0⟩, false, [⟨"p2", ⟨0, 0, 0⟩, ⟨0, 0, 0⟩⟩], none⟩

/-- A connection `conn1` between pin `p1` of `c1` and pin `p2` of `c2`. -/
def connC : LogicalConnection := ⟨"conn1", "p1", "p2", "SIGNAL", none⟩

/-- The wire of `conn1`. -/
def wireW : WireInstance := ⟨"w1", "conn1", [], "SIGNAL", "#0000FF", 2, "manhattan", none⟩

/-- A store holding `c1`, `c2`, the connection `conn1` between their pins and
its wire, with both definitions in the library. -/
def storeC1 : Store :=
  { initialStore with
    componentLibrary := [defD1, defD2],
    components := [instC1, instC2],
    logicalConnections := [connC],
    wires := [wireW] }

/-- A store holding `c1` but with an empty component library, so the
definition lookup for `c1` fails. -/
def storeNoLib : Store := { initialStore with components := [instC1] }

/-- A store holding `c1` with its definition available in the library. -/
def storeWithLib : Store :=
  { initialStore with componentLibrary := [defD1], components := [instC1] }

/-- An empty 4×1×1 grid. -/
def grid4 : Grid := ⟨4, 1, 1, fun _ => false⟩

/-- An empty 2×1×1 grid. -/
def grid2 : Grid := ⟨2, 1, 1, fun _ => false⟩

/-- An empty 2×2×1 grid. -/
def grid22 : Grid := ⟨2, 2, 1, fun _ => false⟩

/-- A 40×10×10 mm panel without rails. -/
def panel40 : PanelConfig := ⟨"p40", 40, 10, 10, []⟩

/-- Routing context over `panel40` with no components, resolution 10 mm. -/
def ctx40 : RoutingContext := ⟨panel40, [], 10⟩

/-- A 10×10×10 mm panel without rails. -/
def panel10 : PanelConfig := ⟨"p10", 10, 10, 10, []⟩

/-- A placed component at the origin of `panel10`: its padded box covers the
single cell of the 1×1×1 grid built at resolution 10. -/
def blockComp : ComponentInstance :=
  ⟨"b1", "d1", "MCB 1", ⟨0, 0⟩, ⟨0, 0, 0⟩, true, [], none⟩

/-- The 1×1×1 grid of `panel10` with its only cell blocked by `blockComp`. -/
def gridBlocked1 : Grid := createGrid panel10 [blockComp] 10

/-- A 20×10×10 mm panel without rails. -/
def panel20 : PanelConfig := ⟨"p20", 20, 10, 10, []⟩

/-- Routing context over `panel20` with no components, resolution 10 mm. -/
def ctx20 : RoutingContext := ⟨panel20, [], 10⟩

/-- A 10×20×10 mm panel without rails (two cells along y at resolution 10). -/
def panelNP : PanelConfig := ⟨"pNP", 10, 20, 10, []⟩

/-- A placed component at `(0, 10, 0)` of `panelNP`: its box blocks exactly
the cell `(0,1,0)` of the 1×2×1 grid, leaving `(0,0,0)` free. -/
def blockCompY : ComponentInstance :=
  ⟨"b2", "d1", "MCB 1", ⟨0, 0⟩, ⟨0, 10, 0⟩, true, [], none⟩

/-- Routing context over `panelNP` containing `blockCompY`, resolution 10 mm:
the goal cell is unreachable, an in-bounds no-path situation. -/
def ctxNP : RoutingContext := ⟨panelNP, [blockCompY], 10⟩

/-- A placed component at the origin (box x-range [-25, 25]). -/
def compTouchA : ComponentInstance := ⟨"a", "d1", "", ⟨0, 0⟩, ⟨0, 0, 0⟩, true, [], none⟩

/-- A placed component at `(50, 0, 0)` (box x-range [25, 75]), touching
`compTouchA`'s box exactly at the plane x = 25. -/
def compTouchB : ComponentInstance := ⟨"b", "d1", "", ⟨0, 0⟩, ⟨50, 0, 0⟩, true, [], none⟩

-- ============================================================================
-- HELPER LEMMAS
-- ============================================================================

/-- `find?` over an appended fresh element: if no element of `l` matches,
`find?` on `l ++ [a]` yields `a` when `a` matches. -/
theorem find?_append_single {α : Type} (p : α → Bool) (l : List α) (a : α)
    (hl : ∀ x ∈ l, p x = false) (ha : p a = true) :
    (l ++ [a]).find? p = some a := by
  induction l with
  | nil => simp [List.find?, ha]
  | cons x xs ih =>
    have hx : p x = false := hl x (by simp)
    simp only [List.cons_append, List.find?, hx]
    exact ih (fun y hy => hl y (by simp [hy]))

/-- `find?` after `updateFirst` with the same predicate: when the update does
not change whether an element matches, the found element is the updated
original. -/
theorem find?_updateFirst {α : Type} (p : α → Bool) (f : α → α) (l : List α)
    (hpf : ∀ x, p (f x) = p x) :
    (updateFirst p f l).find? p = (l.find? p).map f := by
  induction l with
  | nil => simp [updateFirst]
  | cons x xs ih =>
    by_cases hx : p x = true
    · simp [updateFirst, hx, List.find?, hpf]
    · have hx' : p x = false := by simpa using hx
      simp [updateFirst, hx', List.find?, ih]

-- ============================================================================
-- EVALUATION HELPERS (rational arithmetic normalisation)
-- ============================================================================

/-- Two grids with equal dimensions and pointwise-equal obstacle maps are
equal. -/
theorem grid_eq_of_fields {g g' : Grid} (hw : g.width = g'.width)
    (hh : g.height = g'.height) (hd : g.depth = g'.depth)
    (hb : ∀ c, g.blocked c = g'.blocked c) : g = g' := by
  cases g with
  | mk w h d b =>
    cases g' with
    | mk w' h' d' b' =>
      simp only at hw hh hd
      subst hw; subst hh; subst hd
      have : b = b' := funext hb
      rw [this]

/-- The obstacle-free 2×1×1 grid that `createGrid` builds for `panel20`. -/
def gridOOB : Grid := ⟨2, 1, 1, fun _ => false⟩

/-- The 1×2×1 grid that `createGrid` builds for `panelNP` with `blockCompY`:
exactly the cell `(0,1,0)` is blocked. -/
def gridNP : Grid :=
  ⟨1, 2, 1, fun c => decide (0 ≤ c.x ∧ c.x < 1 ∧ 1 ≤ c.y ∧ c.y < 2 ∧ 0 ≤ c.z ∧ c.z < 1)⟩

theorem createGrid_panel20 : createGrid panel20 [] 10 = gridOOB := by
  apply grid_eq_of_fields
  · show ((⌈(20:ℚ) / 10⌉ : Int)).toNat = 2
    have h : (⌈(20:ℚ) / 10⌉ : Int) = 2 := by norm_num
    rw [h]
    rfl
  · show ((⌈(10:ℚ) / 10⌉ : Int)).toNat = 1
    norm_num
  · show ((⌈(10:ℚ) / 10⌉ : Int)).toNat = 1
    norm_num
  · intro c
    simp [createGrid, gridOOB]

theorem createGrid_panelNP : createGrid panelNP [blockCompY] 10 = gridNP := by
  apply grid_eq_of_fields
  · show ((⌈(10:ℚ) / 10⌉ : Int)).toNat = 1
    norm_num
  · show ((⌈(20:ℚ) / 10⌉ : Int)).toNat = 2
    have h : (⌈(20:ℚ) / 10⌉ : Int) = 2 := by norm_num
    rw [h]
    rfl
  · show ((⌈(10:ℚ) / 10⌉ : Int)).toNat = 1
    norm_num
  · intro c
    simp only [createGrid, gridNP, List.any_cons, List.any_nil, Bool.or_false, blockCompY,
      panelNP]
    norm_num

theorem createGrid_panel40 : createGrid panel40 [] 10 = grid4 := by
  apply grid_eq_of_fields
  · show ((⌈(40:ℚ) / 10⌉ : Int)).toNat = 4
    have h : (⌈(40:ℚ) / 10⌉ : Int) = 4 := by norm_num
    rw [h]
    rfl
  · show ((⌈(10:ℚ) / 10⌉ : Int)).toNat = 1
    norm_num
  · show ((⌈(10:ℚ) / 10⌉ : Int)).toNat = 1
    norm_num
  · intro c
    simp [createGrid, grid4]

theorem worldToGrid_oob : worldToGrid ⟨1000, 0, 0⟩ 10 panel20 = ⟨101, 0, 0⟩ := by
  simp only [worldToGrid, panel20]
  norm_num

theorem worldToGrid_in20 : worldToGrid ⟨-5, 5, -5⟩ 10 panel20 = ⟨0, 0, 0⟩ := by
  simp only [worldToGrid, panel20]
  norm_num

theorem worldToGrid_np_start : worldToGrid ⟨0, 5, 0⟩ 10 panelNP = ⟨0, 0, 0⟩ := by
  simp only [worldToGrid, panelNP]
  norm_num

theorem worldToGrid_np_end : worldToGrid ⟨0, 15, 0⟩ 10 panelNP = ⟨0, 1, 0⟩ := by
  simp only [worldToGrid, panelNP]
  norm_num

theorem worldToGrid_c4_start : worldToGrid ⟨-15, 5, -5⟩ 10 panel40 = ⟨0, 0, 0⟩ := by
  simp only [worldToGrid, panel40]
  norm_num

theorem worldToGrid_c4_end : worldToGrid ⟨15, 5, -5⟩ 10 panel40 = ⟨3, 0, 0⟩ := by
  simp only [worldToGrid, panel40]
  norm_num

/-- The A* run on the empty 4×1×1 grid from `(0,0,0)` to `(3,0,0)`: the
straight three-step path. -/
theorem aStar_grid4_path : aStar grid4 ⟨0, 0, 0⟩ ⟨3, 0, 0⟩ 10
    = [⟨0, 0, 0⟩, ⟨1, 0, 0⟩, ⟨2, 0, 0⟩, ⟨3, 0, 0⟩] := by decide

/-- The full routing pipeline on `ctx40` collapses the three collinear steps
to two waypoints. -/
theorem routeWire_ctx40 : routeWire ⟨-15, 5, -5⟩ ⟨15, 5, -5⟩ ctx40
    = [⟨⟨-20, 0, -5⟩, false⟩, ⟨⟨10, 0, -5⟩, false⟩] := by
  show optimizePath (pathToWaypoints (aStar (createGrid panel40 [] 10)
    (worldToGrid ⟨-15, 5, -5⟩ 10 panel40) (worldToGrid ⟨15, 5, -5⟩ 10 panel40) 10) 10 panel40) = _
  rw [createGrid_panel40, worldToGrid_c4_start, worldToGrid_c4_end, aStar_grid4_path]
  simp only [pathToWaypoints, List.map_cons, List.map_nil, panel40]
  norm_num
  simp only [optimizePath, optimizeGo, wpDir]
  norm_num

/-- Projection fact: `applyPositionUpdate` never changes the instance id. -/
theorem applyPositionUpdate_instanceId (s : Store) (position : Pos3) (slot : Option Int)
    (c : ComponentInstance) :
    (applyPositionUpdate s position slot c).instanceId = c.instanceId := by
  simp only [applyPositionUpdate]
  cases hd : getDefinition s c.definitionId <;> simp [hd]

/-- Projection fact: `applyPositionUpdate` never changes the definition id. -/
theorem applyPositionUpdate_definitionId (s : Store) (position : Pos3) (slot : Option Int)
    (c : ComponentInstance) :
    (applyPositionUpdate s position slot c).definitionId = c.definitionId := by
  simp only [applyPositionUpdate]
  cases hd : getDefinition s c.definitionId <;> simp [hd]

/-- The rail scan is a first-match search: it returns the image of the first
rail within tolerance, with the unclamped rounded slot. -/
theorem snapScan_eq_find (position : Pos3) (rails : List DinRailConfig) :
    snapScan position rails = (rails.find? (fun rail =>
        decide (|position.y - rail.position.y| < 30 ∧ |position.z - rail.position.z| < 30))).map
      (fun rail =>
        ⟨⟨rail.position.x + ((jsRound ((position.x - rail.position.x) / (35 / 2))) : ℚ) * (35 / 2),
          rail.position.y, rail.position.z⟩, rail.id,
          jsRound ((position.x - rail.position.x) / (35 / 2))⟩) := by
  induction rails with
  | nil => rfl
  | cons rail rest ih =>
    by_cases h : |position.y - rail.position.y| < 30 ∧ |position.z - rail.position.z| < 30
    · simp [snapScan, List.find?, h]
    · have hd : (decide (|position.y - rail.position.y| < 30
          ∧ |position.z - rail.position.z| < 30)) = false := by simpa using h
      rw [snapScan, if_neg h]
      simp only [List.find?, hd]
      exact ih

/-- Concrete snap with a negative slot: the snapped x lies left of the rail
start. -/
theorem snapToDinRail_negative_slot : snapToDinRail ⟨-875/2, 200, -50⟩ initialPanel
    = some ⟨⟨-875/2, 200, -50⟩, "dinrail-1", -5⟩ := by
  have hj5 : jsRound (-5 : ℚ) = -5 := by
    unfold jsRound
    norm_num
  simp only [snapToDinRail, initialPanel, snapScan]
  norm_num [hj5]

/-- Concrete snap with slot 45 on a 40-module rail: the snapped x lies beyond
the rail end. -/
theorem snapToDinRail_overflow_slot : snapToDinRail ⟨875/2, 200, -50⟩ initialPanel
    = some ⟨⟨875/2, 200, -50⟩, "dinrail-1", 45⟩ := by
  have hj45 : jsRound (45 : ℚ) = 45 := by
    unfold jsRound
    norm_num
  simp only [snapToDinRail, initialPanel, snapScan]
  norm_num [hj45]

-- ============================================================================
-- CLAIM C1 — removeComponent cascade
-- ============================================================================

/-- C1: the claim states that after `removeComponent(id)` no logical
connection references a pin of the removed instance and no wire references
such a connection.  The code violates this: it filters the components list
first and then looks the removed instance up in the already-filtered list, so
the definition lookup always fails and the cascade never runs.  Evaluated at
the failing input `storeC1`/`"c1"`: the instance is gone, yet the connection
`conn1` — whose `fromPinId` `"p1"` is the pin of the removed instance `c1`
(the only logical pin of its definition `d1`) — and its wire `w1` both
survive. -/
theorem C1_removeComponent_cascade_bug :
    (∀ c ∈ (removeComponent storeC1 "c1").components, c.instanceId ≠ "c1")
    ∧ (removeComponent storeC1 "c1").logicalConnections = [connC]
    ∧ connC.fromPinId = "p1"
    ∧ pinP1 ∈ defD1.logicalPins ∧ pinP1.id = "p1"
    ∧ instC1.definitionId = defD1.id
    ∧ instC1 ∈ storeC1.components
    ∧ (removeComponent storeC1 "c1").wires = [wireW] := by decide

-- ============================================================================
-- CLAIM C2 — addConnection validation
-- ============================================================================

/-- C2 counterexample: the claim states that `addConnection` on unresolvable
pin ids fails with `UnknownPin` and leaves the store unchanged.  In the code
there is no validation at all: on the empty initial store, where neither pin
id resolves, the call creates both a connection and a wire and changes the
store. -/
theorem C2_addConnection_counterexample :
    pinResolves initialStore "a" = false ∧ pinResolves initialStore "b" = false
    ∧ (addConnection initialStore "a" "b" "conn-1" "wire-1").logicalConnections
        = [⟨"conn-1", "a", "b", "SIGNAL", none⟩]
    ∧ (addConnection initialStore "a" "b" "conn-1" "wire-1").wires
        = [⟨"wire-1", "conn-1", [], "SIGNAL", "#0000FF", 2, "manhattan", none⟩]
    ∧ addConnection initialStore "a" "b" "conn-1" "wire-1" ≠ initialStore := by decide

/-- C2 amended: `addConnection` performs no pin validation and never fails.
For every store and any pin ids whatsoever (resolving or not), with a fresh
connection id it appends the connection (wire type `SIGNAL`) and a
corresponding empty, unrouted wire. -/
theorem C2_addConnection_always_appends (s : Store) (fromPinId toPinId cid wid : String)
    (hfresh : ∀ c ∈ s.logicalConnections, c.id ≠ cid) :
    (addConnection s fromPinId toPinId cid wid).logicalConnections
      = s.logicalConnections ++ [⟨cid, fromPinId, toPinId, "SIGNAL", none⟩]
    ∧ (addConnection s fromPinId toPinId cid wid).wires
      = s.wires ++ [⟨wid, cid, [], "SIGNAL", getWireColor "SIGNAL", 2, "manhattan", none⟩] := by
  have hfind : ((s.logicalConnections
      ++ [(⟨cid, fromPinId, toPinId, "SIGNAL", none⟩ : LogicalConnection)]).find?
      (fun c => decide (c.id = cid))) = some ⟨cid, fromPinId, toPinId, "SIGNAL", none⟩ :=
    find?_append_single _ _ _ (fun x hx => by simpa using hfresh x hx) (by simp)
  constructor
  · simp [addConnection, addWire, hfind]
  · simp [addConnection, addWire, hfind]

/-- Witness for C2's amended theorem at the empty initial store. -/
theorem C2_addConnection_always_appends_witness :
    (addConnection initialStore "a" "b" "cid1" "wid1").logicalConnections
      = initialStore.logicalConnections ++ [⟨"cid1", "a", "b", "SIGNAL", none⟩]
    ∧ (addConnection initialStore "a" "b" "cid1" "wid1").wires
      = initialStore.wires
        ++ [⟨"wid1", "cid1", [], "SIGNAL", getWireColor "SIGNAL", 2, "manhattan", none⟩] :=
  C2_addConnection_always_appends initialStore "a" "b" "cid1" "wid1" (by decide)

-- ============================================================================
-- CLAIM C3 — out-of-bounds endpoints
-- ============================================================================

/-- C3 counterexample: the claim states that out-of-bounds endpoints produce a
tagged `Unroutable(OutOfBounds)` result distinguishable from `NoPath`.  The
code returns a bare empty waypoint list.  With the start far outside
`panel20`'s grid the result is `[]`, and the in-bounds but unreachable request
on `ctxNP` (goal cell blocked by a component) returns the very same `[]` — the
two failures are indistinguishable and no tagged value exists. -/
theorem C3_out_of_bounds_counterexample :
    inBounds (createGrid panel20 [] 10) (worldToGrid ⟨1000, 0, 0⟩ 10 panel20) = false
    ∧ routeWire ⟨1000, 0, 0⟩ ⟨-5, 5, -5⟩ ctx20 = []
    ∧ inBounds (createGrid panelNP [blockCompY] 10) (worldToGrid ⟨0, 5, 0⟩ 10 panelNP) = true
    ∧ inBounds (createGrid panelNP [blockCompY] 10) (worldToGrid ⟨0, 15, 0⟩ 10 panelNP) = true
    ∧ routeWire ⟨0, 5, 0⟩ ⟨0, 15, 0⟩ ctxNP = [] := by
  refine ⟨?_, ?_, ?_, ?_, ?_⟩
  · rw [createGrid_panel20, worldToGrid_oob]; decide
  · show optimizePath (pathToWaypoints (aStar (createGrid panel20 [] 10)
      (worldToGrid ⟨1000, 0, 0⟩ 10 panel20) (worldToGrid ⟨-5, 5, -5⟩ 10 panel20) 10)
      10 panel20) = []
    rw [createGrid_panel20, worldToGrid_oob, worldToGrid_in20]
    decide
  · rw [createGrid_panelNP, worldToGrid_np_start]; decide
  · rw [createGrid_panelNP, worldToGrid_np_end]; decide
  · show optimizePath (pathToWaypoints (aStar (createGrid panelNP [blockCompY] 10)
      (worldToGrid ⟨0, 5, 0⟩ 10 panelNP) (worldToGrid ⟨0, 15, 0⟩ 10 panelNP) 10)
      10 panelNP) = []
    rw [createGrid_panelNP, worldToGrid_np_start, worldToGrid_np_end]
    decide

/-- C3 amended: whenever the start or end position converts to grid
coordinates outside the grid bounds, `routeWire` returns the empty waypoint
list — the same value as a no-path failure, with no tag — and, the embedding
being total, never throws. -/
theorem C3_out_of_bounds_empty_result (startPos endPos : Pos3) (context : RoutingContext)
    (h : inBounds (createGrid context.panel context.components context.gridResolution)
            (worldToGrid startPos context.gridResolution context.panel) = false
       ∨ inBounds (createGrid context.panel context.components context.gridResolution)
            (worldToGrid endPos context.gridResolution context.panel) = false) :
    routeWire startPos endPos context = [] := by
  have hand : (inBounds (createGrid context.panel context.components context.gridResolution)
            (worldToGrid startPos context.gridResolution context.panel)
       && inBounds (createGrid context.panel context.components context.gridResolution)
            (worldToGrid endPos context.gridResolution context.panel)) = false := by
    rcases h with h | h <;> simp [h]
  simp [routeWire, aStar, hand, pathToWaypoints, optimizePath]

/-- Witness for C3's amended theorem at a start 1000 mm outside `panel20`. -/
theorem C3_out_of_bounds_empty_result_witness :
    routeWire ⟨1000, 0, 0⟩ ⟨-5, 5, -5⟩ ctx20 = [] :=
  C3_out_of_bounds_empty_result ⟨1000, 0, 0⟩ ⟨-5, 5, -5⟩ ctx20
    (Or.inl (by
      show inBounds (createGrid panel20 [] 10) (worldToGrid ⟨1000, 0, 0⟩ 10 panel20) = false
      rw [createGrid_panel20, worldToGrid_oob]
      decide))

-- ============================================================================
-- CLAIM C5 — returned path cells and the blocked flag
-- ============================================================================

/-- C5 counterexample: the claim states that every cell of a returned
non-empty path, including the start and end cells, is unblocked.  The code
never checks the start node's obstacle flag: on the grid that `createGrid`
actually builds for `panelNP` with `blockCompY`, the cell `(0,1,0)` is
blocked, yet the search from `(0,1,0)` to itself returns the non-empty path
`[(0,1,0)]` through that blocked cell. -/
theorem C5_blocked_start_counterexample :
    createGrid panelNP [blockCompY] 10 = gridNP
    ∧ gridNP.blocked ⟨0, 1, 0⟩ = true
    ∧ inBounds gridNP ⟨0, 1, 0⟩ = true
    ∧ aStar gridNP ⟨0, 1, 0⟩ ⟨0, 1, 0⟩ 10 = [⟨0, 1, 0⟩] :=
  ⟨createGrid_panelNP, by decide, by decide, by decide⟩

-- ============================================================================
-- CLAIM C6 — tie-breaking in the open-set scan
-- ============================================================================

/-- The goal cell of the C6 trace on the empty 2×2×1 grid. -/
def c6goal : Coord := ⟨1, 1, 0⟩

/-- Initial search state of the C6 trace (start `(0,0,0)`). -/
def c6s0 : AState := initState ⟨0, 0, 0⟩ c6goal

/-- State after the first loop iteration (the start is expanded; its two
in-bounds neighbours are pushed in direction order: `(1,0,0)` first, then
`(0,1,0)`). -/
def c6s1 : AState :=
  match aStarStep grid22 c6goal 5 c6s0 with
  | .next s => s
  | _ => c6s0

/-- State after the second loop iteration. -/
def c6s2 : AState :=
  match aStarStep grid22 c6goal 5 c6s1 with
  | .next s => s
  | _ => c6s1

/-- C6 counterexample: the claim states that among equal-`f` frontier nodes
the most recently inserted is expanded.  The open list is kept in insertion
order (`push` appends, `splice` preserves order).  After one iteration the
open list is `[(1,0,0), (0,1,0)]` — `(0,1,0)` the more recently inserted —
with equal total cost 2, yet the second iteration expands `(1,0,0)`, the
EARLIEST inserted (it is the node appended to the closed list), because the
linear scan switches only on strictly smaller `f`. -/
theorem C6_tiebreak_counterexample :
    c6s1.openSet = [⟨1, 0, 0⟩, ⟨0, 1, 0⟩]
    ∧ (c6s1.nd ⟨1, 0, 0⟩).f = some 2
    ∧ (c6s1.nd ⟨0, 1, 0⟩).f = some 2
    ∧ c6s2.closedSet = [⟨0, 0, 0⟩, ⟨1, 0, 0⟩]
    ∧ ((⟨1, 0, 0⟩ : Coord) ≠ ⟨0, 1, 0⟩) := by decide

-- ============================================================================
-- CLAIM C7 — pin positions after updateComponentPhysicalPosition
-- ============================================================================

/-- C7 counterexample: the claim states that after any position update every
pin of the instance satisfies `connectionPoint = physicalPosition + offset`.
When the instance's definition is not in the component library, the code
updates the position but skips the pin recomputation: in `storeNoLib` the
update to `(10,20,30)` leaves the pin's world coordinate at the stale
`(0,0,0)`, which differs from `(10+0, 20+0, 30+0)`. -/
theorem C7_stale_pin_counterexample :
    getDefinition storeNoLib instC1.definitionId = none
    ∧ (updateComponentPhysicalPosition storeNoLib "c1" ⟨10, 20, 30⟩ none).components
        = [{ instC1 with physicalPosition := ⟨10, 20, 30⟩ }]
    ∧ instC1.physicalPins = [⟨"p1", ⟨0, 0, 0⟩, ⟨0, 0, 0⟩⟩]
    ∧ ((⟨0, 0, 0⟩ : Pos3) ≠ ⟨10 + 0, 20 + 0, 30 + 0⟩) :=
  ⟨by decide, by decide, by decide, by simp [Pos3.mk.injEq]⟩

/-- C7 amended: provided the updated instance's definition id resolves in the
component library, the instance found after
`updateComponentPhysicalPosition(id, position)` has `physicalPosition =
position` and every one of its physical pins satisfies `connectionPoint =
position + pin offset`; with the definition missing, the pins are left stale. -/
theorem C7_pins_in_sync_when_definition_found (s : Store) (instanceId : String)
    (position : Pos3) (slot : Option Int) (c' : ComponentInstance)
    (hfind : ((updateComponentPhysicalPosition s instanceId position slot).components.find?
        (fun c => decide (c.instanceId = instanceId))) = some c')
    (hdef : (getDefinition s c'.definitionId).isSome = true) :
    c'.physicalPosition = position
    ∧ ∀ pin ∈ c'.physicalPins, pin.connectionPoint
        = ⟨position.x + pin.position.x, position.y + pin.position.y,
           position.z + pin.position.z⟩ := by
  have hfind' : (updateFirst (fun c => decide (c.instanceId = instanceId))
      (applyPositionUpdate s position slot) s.components).find?
      (fun c => decide (c.instanceId = instanceId)) = some c' := hfind
  rw [find?_updateFirst _ _ _
    (fun x => by simp [applyPositionUpdate_instanceId])] at hfind'
  obtain ⟨c0, hc0, hc0'⟩ := Option.map_eq_some'.mp hfind'
  subst hc0'
  rw [applyPositionUpdate_definitionId] at hdef
  obtain ⟨d, hd⟩ := Option.isSome_iff_exists.mp hdef
  constructor
  · simp [applyPositionUpdate, hd]
  · intro pin hpin
    simp only [applyPositionUpdate, hd] at hpin
    simp only [List.mem_map] at hpin
    obtain ⟨pin0, hmem, rfl⟩ := hpin
    rfl

/-- The image of `instC1` under the position update to `(10,20,30)` with its
definition available: position set, pin world coordinate recomputed. -/
def instC1upd : ComponentInstance :=
  { instC1 with
    physicalPosition := ⟨10, 20, 30⟩,
    physicalPins := [⟨"p1", ⟨0, 0, 0⟩, ⟨10 + 0, 20 + 0, 30 + 0⟩⟩] }

/-- Witness for C7's amended theorem: in `storeWithLib` the definition of `c1`
is present, and the update to `(10,20,30)` recomputes its pin. -/
theorem C7_pins_in_sync_when_definition_found_witness :
    instC1upd.physicalPosition = (⟨10, 20, 30⟩ : Pos3)
    ∧ ∀ pin ∈ instC1upd.physicalPins,
        pin.connectionPoint = ⟨(10 : ℚ) + pin.position.x, (20 : ℚ) + pin.position.y,
          (30 : ℚ) + pin.position.z⟩ :=
  C7_pins_in_sync_when_definition_found storeWithLib "c1" ⟨10, 20, 30⟩ none
    instC1upd (by rfl) (by rfl)

-- ============================================================================
-- CLAIM C8 — routing determinism / idempotence
-- ============================================================================

/-- Two successive `routeWire` calls with the same inputs and no intervening
state change.  In the source each call mutates search bookkeeping only on the
grid it freshly builds via `createGrid`; that mutable state is carried
explicitly inside `aStar` here and discarded per call, so the second call
starts from the same rebuilt grid. -/
def routeWireTwice (startPos endPos : Pos3) (context : RoutingContext) :
    List Waypoint × List Waypoint :=
  (routeWire startPos endPos context, routeWire startPos endPos context)

/-- C8: routing is deterministic and idempotent — for every panel
configuration, component list, resolution and endpoints, two successive
`routeWire` calls return identical waypoint lists.  The embedding makes the
per-call grid rebuild explicit, so both components of `routeWireTwice`
coincide. -/
theorem C8_routeWire_idempotent (startPos endPos : Pos3) (context : RoutingContext) :
    (routeWireTwice startPos endPos context).1 = (routeWireTwice startPos endPos context).2 :=
  rfl

-- ============================================================================
-- CLAIM C9 — touching bounding boxes
-- ============================================================================

/-- C9 counterexample: the claim states boxes overlap only under strict
inequality, so touching edges count as non-overlapping.  `checkCollision`
uses three.js `Box3.intersectsBox`, whose comparisons are non-strict: the
boxes of `compTouchA` (x-range [-25,25]) and `compTouchB` (x-range [25,75])
touch exactly at x = 25, yet a collision IS reported. -/
theorem C9_touching_boxes_counterexample :
    (componentBox compTouchA).max.x = (componentBox compTouchB).min.x
    ∧ compTouchA.isPhysicallyPlaced = true ∧ compTouchB.isPhysicallyPlaced = true
    ∧ compTouchA.instanceId ≠ compTouchB.instanceId
    ∧ checkCollision compTouchA [compTouchB] = true := by
  refine ⟨?_, by decide, by decide, by decide, ?_⟩
  · show (0 : ℚ) + 25 = 50 - 25
    norm_num
  · simp only [checkCollision, compTouchA, compTouchB, componentBox, intersectsBox]
    norm_num
    decide

/-- C9 amended: `checkCollision` treats touching boxes as overlapping
(non-strict comparisons, the three.js `Box3.intersectsBox` semantics): for any
two distinct placed instances whose assumed boxes share the boundary plane
between `a`'s max-x face and `b`'s min-x face and overlap non-strictly on y
and z, a collision is reported. -/
theorem C9_touching_boxes_collide (a b : ComponentInstance)
    (ha : a.isPhysicallyPlaced = true) (hb : b.isPhysicallyPlaced = true)
    (hid : b.instanceId ≠ a.instanceId)
    (hx : a.physicalPosition.x + 25 = b.physicalPosition.x - 25)
    (hy1 : b.physicalPosition.y ≤ a.physicalPosition.y + 100)
    (hy2 : a.physicalPosition.y ≤ b.physicalPosition.y + 100)
    (hz1 : b.physicalPosition.z - 25 ≤ a.physicalPosition.z + 25)
    (hz2 : a.physicalPosition.z - 25 ≤ b.physicalPosition.z + 25) :
    checkCollision a [b] = true := by
  have hcond : ¬ (b.instanceId = a.instanceId ∨ b.isPhysicallyPlaced = false) := by
    simp [hid, hb]
  simp only [checkCollision, ha, if_true, List.any_cons, List.any_nil, Bool.or_false,
    if_neg hcond]
  show intersectsBox (componentBox a) (componentBox b) = true
  have hnot : ¬ ((componentBox b).max.x < (componentBox a).min.x
      ∨ (componentBox b).min.x > (componentBox a).max.x
      ∨ (componentBox b).max.y < (componentBox a).min.y
      ∨ (componentBox b).min.y > (componentBox a).max.y
      ∨ (componentBox b).max.z < (componentBox a).min.z
      ∨ (componentBox b).min.z > (componentBox a).max.z) := by
    simp only [componentBox, not_or, not_lt, gt_iff_lt]
    refine ⟨by linarith, by linarith, by linarith, by linarith, by linarith, by linarith⟩
  unfold intersectsBox
  rw [if_neg hnot]

/-- Witness for C9's amended theorem at the touching pair
`compTouchA`/`compTouchB`. -/
theorem C9_touching_boxes_collide_witness :
    checkCollision compTouchA [compTouchB] = true :=
  C9_touching_boxes_collide compTouchA compTouchB (by decide) (by decide) (by decide)
    (by norm_num [compTouchA, compTouchB]) (by norm_num [compTouchA, compTouchB])
    (by norm_num [compTouchA, compTouchB]) (by norm_num [compTouchA, compTouchB])
    (by norm_num [compTouchA, compTouchB])

-- ============================================================================
-- CLAIM C10 — snapToDinRail behaviour
-- ============================================================================

/-- C10: `snapToDinRail` returns the result for the FIRST rail in
`panel.dinRails` order whose y- and z-distances are both strictly below 30 mm,
with slot `round((position.x - rail.position.x) / 17.5)` and no clamping: on
the initial panel the in-tolerance position with x = −437.5 yields slot −5
(negative, snapped x left of the rail start −350), and x = 437.5 yields slot
45 on a 40-module rail (snapped x beyond the rail end −350 + 700). -/
theorem C10_snapToDinRail_first_match_unclamped :
    (∀ (position : Pos3) (panel : PanelConfig),
      snapToDinRail position panel = (panel.dinRails.find? (fun rail =>
          decide (|position.y - rail.position.y| < 30
            ∧ |position.z - rail.position.z| < 30))).map
        (fun rail =>
          ⟨⟨rail.position.x + ((jsRound ((position.x - rail.position.x) / (35 / 2))) : ℚ)
              * (35 / 2), rail.position.y, rail.position.z⟩, rail.id,
            jsRound ((position.x - rail.position.x) / (35 / 2))⟩))
    ∧ snapToDinRail ⟨-875/2, 200, -50⟩ initialPanel
        = some ⟨⟨-875/2, 200, -50⟩, "dinrail-1", -5⟩
    ∧ ((-5 : Int) < 0) ∧ ((-875/2 : ℚ) < -350)
    ∧ snapToDinRail ⟨875/2, 200, -50⟩ initialPanel
        = some ⟨⟨875/2, 200, -50⟩, "dinrail-1", 45⟩
    ∧ ((40 : Int) < 45)
    ∧ (initialPanel.dinRails.map (fun r => r.maxModules) = [40, 40, 40])
    ∧ ((-350 : ℚ) + 700 < 875/2) :=
  ⟨fun position panel => snapScan_eq_find position panel.dinRails,
   snapToDinRail_negative_slot, by decide, by norm_num,
   snapToDinRail_overflow_slot, by decide, by decide, by norm_num⟩

-- ============================================================================
-- THE OPEN-SET SCAN SPECIFICATION (C6 amended)
-- ============================================================================

/-- The stored total cost of the `j`-th open-list entry. -/
def openF (nd : Coord → NodeData) (l : List Coord) (j : Nat) : Option Nat :=
  (nd (l.getD j ⟨0, 0, 0⟩)).f

theorem fLt_irrefl (a : Option Nat) : fLt a a = false := by
  cases a <;> simp [fLt]

theorem fLt_trans {a b c : Option Nat} (h1 : fLt a b = true) (h2 : fLt b c = true) :
    fLt a c = true := by
  cases a <;> cases b <;> cases c <;> simp_all [fLt] <;> omega

theorem fLt_of_fLt_of_not {a b c : Option Nat} (h1 : fLt a b = true) (h2 : fLt c b = false) :
    fLt a c = true := by
  cases a <;> cases b <;> cases c <;> simp_all [fLt] <;> omega

/-- Invariant of the source's minimum scan: starting from a candidate `cur`
that is the first minimum of the indices below `i`, the scan returns an index
in range that no examined index strictly undercuts, and that strictly
undercuts every smaller index. -/
theorem scanLowest_spec (nd : Coord → NodeData) (l : List Coord) :
    ∀ (rest : List Coord) (i cur : Nat), cur < i →
    (∀ j < i, fLt (openF nd l j) (openF nd l cur) = false) →
    (∀ j < cur, fLt (openF nd l cur) (openF nd l j) = true) →
    (scanLowest nd l rest i cur < i + rest.length ∨ scanLowest nd l rest i cur = cur)
    ∧ (∀ j < i + rest.length,
        fLt (openF nd l j) (openF nd l (scanLowest nd l rest i cur)) = false)
    ∧ (∀ j < scanLowest nd l rest i cur,
        fLt (openF nd l (scanLowest nd l rest i cur)) (openF nd l j) = true) := by
  intro rest
  induction rest with
  | nil =>
    intro i cur hcur hmin hfirst
    refine ⟨Or.inr rfl, ?_, ?_⟩
    · intro j hj
      exact hmin j (by simpa using hj)
    · exact hfirst
  | cons x rest ih =>
    intro i cur hcur hmin hfirst
    have hlen : (x :: rest).length = rest.length + 1 := rfl
    rw [scanLowest]
    by_cases hb : fLt ((nd (l.getD i ⟨0, 0, 0⟩)).f) ((nd (l.getD cur ⟨0, 0, 0⟩)).f) = true
    · rw [if_pos hb]
      have hb' : fLt (openF nd l i) (openF nd l cur) = true := hb
      have hmin' : ∀ j < i + 1, fLt (openF nd l j) (openF nd l i) = false := by
        intro j hj
        rcases Nat.lt_succ_iff_lt_or_eq.mp hj with hj | rfl
        · cases hcv : fLt (openF nd l j) (openF nd l i) with
          | false => rfl
          | true =>
            have htr : fLt (openF nd l j) (openF nd l cur) = true := fLt_trans hcv hb'
            rw [hmin j hj] at htr
            exact absurd htr (by simp)
        · exact fLt_irrefl _
      have hfirst' : ∀ j < i, fLt (openF nd l i) (openF nd l j) = true := by
        intro j hj
        by_cases hjc : j < cur
        · exact fLt_trans hb' (hfirst j hjc)
        · by_cases hjec : j = cur
          · subst hjec
            exact hb'
          · exact fLt_of_fLt_of_not hb' (hmin j hj)
      obtain ⟨hr1, hr2, hr3⟩ := ih (i + 1) i (Nat.lt_succ_self i) hmin' hfirst'
      refine ⟨?_, ?_, hr3⟩
      · rcases hr1 with h | h
        · left
          omega
        · left
          omega
      · intro j hj
        apply hr2
        omega
    · rw [if_neg hb]
      have hb' : fLt (openF nd l i) (openF nd l cur) = false := by
        cases hcv : fLt (openF nd l i) (openF nd l cur) with
        | false => rfl
        | true => exact absurd hcv hb
      have hmin' : ∀ j < i + 1, fLt (openF nd l j) (openF nd l cur) = false := by
        intro j hj
        rcases Nat.lt_succ_iff_lt_or_eq.mp hj with hj | rfl
        · exact hmin j hj
        · exact hb'
      obtain ⟨hr1, hr2, hr3⟩ := ih (i + 1) cur (by omega) hmin' hfirst
      refine ⟨?_, ?_, hr3⟩
      · rcases hr1 with h | h
        · left
          omega
        · right
          exact h
      · intro j hj
        apply hr2
        omega

/-- The pop selection of `aStar`: on a non-empty open list the selected index
is valid, carries a minimal `f`, and strictly undercuts every earlier index. -/
theorem findLowestFIndex_spec (nd : Coord → NodeData) (l : List Coord) (h : l ≠ []) :
    findLowestFIndex nd l < l.length
    ∧ (∀ j < l.length, fLt (openF nd l j) (openF nd l (findLowestFIndex nd l)) = false)
    ∧ (∀ j < findLowestFIndex nd l,
        fLt (openF nd l (findLowestFIndex nd l)) (openF nd l j) = true) := by
  have hlen : 1 ≤ l.length := by
    cases l with
    | nil => exact absurd rfl h
    | cons a t => simp
  have hdrop : (l.drop 1).length = l.length - 1 := by simp
  obtain ⟨hr1, hr2, hr3⟩ := scanLowest_spec nd l (l.drop 1) 1 0 (by omega)
    (fun j hj => by
      have : j = 0 := by omega
      subst this
      exact fLt_irrefl _)
    (fun j hj => absurd hj (by omega))
  rw [findLowestFIndex]
  refine ⟨?_, ?_, hr3⟩
  · rcases hr1 with h1 | h1
    · omega
    · omega
  · intro j hj
    apply hr2
    omega

/-- C6 amended: the documented tie-break is wrong about which node wins.  For
every bookkeeping map and non-empty open list (kept in insertion order: `push`
appends, `splice` preserves relative order), the index selected by the pop
scan is valid, has a minimal stored `f`, STRICTLY undercuts every
earlier-inserted entry, and whenever another entry has an equal `f` the
selected index is at most that entry's index — so among equal-cost frontier
nodes the EARLIEST inserted is expanded, not the most recent. -/
theorem C6_tiebreak_earliest_inserted (nd : Coord → NodeData) (l : List Coord) (h : l ≠ []) :
    findLowestFIndex nd l < l.length
    ∧ (∀ j < l.length, fLt (openF nd l j) (openF nd l (findLowestFIndex nd l)) = false)
    ∧ (∀ j < findLowestFIndex nd l,
        fLt (openF nd l (findLowestFIndex nd l)) (openF nd l j) = true)
    ∧ (∀ j < l.length, openF nd l j = openF nd l (findLowestFIndex nd l) →
        findLowestFIndex nd l ≤ j) := by
  obtain ⟨h1, h2, h3⟩ := findLowestFIndex_spec nd l h
  refine ⟨h1, h2, h3, ?_⟩
  intro j hj heq
  by_contra hc
  have hlt : j < findLowestFIndex nd l := by omega
  have := h3 j hlt
  rw [heq, fLt_irrefl] at this
  exact absurd this (by simp)

/-- Witness for C6's amended theorem at the two-entry tied open list after the
first expansion of the `grid22` trace. -/
theorem C6_tiebreak_earliest_inserted_witness :
    findLowestFIndex c6s1.nd c6s1.openSet < c6s1.openSet.length
    ∧ (∀ j < c6s1.openSet.length, fLt (openF c6s1.nd c6s1.openSet j)
        (openF c6s1.nd c6s1.openSet (findLowestFIndex c6s1.nd c6s1.openSet)) = false)
    ∧ (∀ j < findLowestFIndex c6s1.nd c6s1.openSet,
        fLt (openF c6s1.nd c6s1.openSet (findLowestFIndex c6s1.nd c6s1.openSet))
          (openF c6s1.nd c6s1.openSet j) = true)
    ∧ (∀ j < c6s1.openSet.length, openF c6s1.nd c6s1.openSet j
          = openF c6s1.nd c6s1.openSet (findLowestFIndex c6s1.nd c6s1.openSet) →
        findLowestFIndex c6s1.nd c6s1.openSet ≤ j) :=
  C6_tiebreak_earliest_inserted c6s1.nd c6s1.openSet (by decide)

/-- Invariant for the soundness of returned paths: parent pointers are only
ever assigned to unblocked cells, parents are closed (already expanded) cells,
and every open or closed cell is the start or carries a parent. -/
structure PathInv (grid : Grid) (start : Coord) (s : AState) : Prop where
  par_unblocked : ∀ c p, (s.nd c).parent = some p → grid.blocked c = false
  par_closed : ∀ c p, (s.nd c).parent = some p → p ∈ s.closedSet
  mem_par : ∀ c, c ∈ s.openSet ∨ c ∈ s.closedSet → c = start ∨ (s.nd c).parent ≠ none

/-- Neighbour relaxation never touches the closed set. -/
theorem relaxNeighbor_closedSet (grid : Grid) (endC current : Coord) (s : AState)
    (n : Coord) : (relaxNeighbor grid endC current s n).closedSet = s.closedSet := by
  unfold relaxNeighbor
  split
  · rfl
  · dsimp only
    split
    · split
      · rfl
      · rfl
    · rfl

/-- One neighbour relaxation preserves the path invariant (parents are
assigned only to unblocked, guard-passing cells, pointing at the closed
expanded node). -/
theorem relaxNeighbor_pathInv (grid : Grid) (start endC current : Coord) (s : AState)
    (n : Coord) (hinv : PathInv grid start s) (hcur : current ∈ s.closedSet) :
    PathInv grid start (relaxNeighbor grid endC current s n) := by
  unfold relaxNeighbor
  split
  · exact hinv
  · rename_i hguard
    have hnb : grid.blocked n = false := by
      by_contra hb
      exact hguard (Or.inr (by simpa using hb))
    dsimp only
    split
    · split
      · exact hinv
      · constructor
        · intro c p hp
          by_cases hc : c = n
          · subst hc
            exact hnb
          · exact hinv.par_unblocked c p (by simpa [updateNd, hc] using hp)
        · intro c p hp
          by_cases hc : c = n
          · subst hc
            simp [updateNd] at hp
            subst hp
            exact hcur
          · exact hinv.par_closed c p (by simpa [updateNd, hc] using hp)
        · intro c hc
          by_cases hcn : c = n
          · subst hcn
            right
            simp [updateNd]
          · rcases hinv.mem_par c (by simpa using hc) with h | h
            · exact Or.inl h
            · right
              simpa [updateNd, hcn] using h
    · constructor
      · intro c p hp
        by_cases hc : c = n
        · subst hc
          exact hnb
        · exact hinv.par_unblocked c p (by simpa [updateNd, hc] using hp)
      · intro c p hp
        by_cases hc : c = n
        · subst hc
          simp [updateNd] at hp
          subst hp
          exact hcur
        · exact hinv.par_closed c p (by simpa [updateNd, hc] using hp)
      · intro c hc
        by_cases hcn : c = n
        · subst hcn
          right
          simp [updateNd]
        · have hc' : c ∈ s.openSet ∨ c ∈ s.closedSet := by
            rcases hc with hc | hc
            · left
              simp only [List.mem_append, List.mem_singleton] at hc
              rcases hc with hc | hc
              · exact hc
              · exact absurd hc hcn
            · right
              exact hc
          rcases hinv.mem_par c hc' with h | h
          · exact Or.inl h
          · right
            simpa [updateNd, hcn] using h

/-- The relaxation fold never touches the closed set. -/
theorem foldl_relax_closedSet (grid : Grid) (endC current : Coord) (l : List Coord)
    (s : AState) :
    (l.foldl (relaxNeighbor grid endC current) s).closedSet = s.closedSet := by
  induction l generalizing s with
  | nil => rfl
  | cons x xs ih => rw [List.foldl_cons, ih, relaxNeighbor_closedSet]

/-- The relaxation fold preserves the path invariant. -/
theorem foldl_relax_pathInv (grid : Grid) (start endC current : Coord) (l : List Coord)
    (s : AState) (hinv : PathInv grid start s) (hcur : current ∈ s.closedSet) :
    PathInv grid start (l.foldl (relaxNeighbor grid endC current) s) := by
  induction l generalizing s with
  | nil => exact hinv
  | cons x xs ih =>
    rw [List.foldl_cons]
    apply ih
    · exact relaxNeighbor_pathInv grid start endC current s x hinv hcur
    · rw [relaxNeighbor_closedSet]
      exact hcur

/-- A `getD` at a valid index is a member of the list. -/
theorem getD_mem_of_lt {l : List Coord} {i : Nat} (h : i < l.length) (d : Coord) :
    l.getD i d ∈ l := by
  rw [List.getD_eq_getElem l d h]
  exact List.getElem_mem h

/-- A full loop iteration preserves the path invariant. -/
theorem aStarStep_pathInv (grid : Grid) (start endC : Coord) (reconFuel : Nat)
    (s s' : AState) (hinv : PathInv grid start s)
    (hstep : aStarStep grid endC reconFuel s = .next s') : PathInv grid start s' := by
  unfold aStarStep at hstep
  cases hopen : s.openSet with
  | nil =>
    rw [hopen] at hstep
    exact absurd hstep (by simp)
  | cons a rest =>
    rw [hopen] at hstep
    dsimp only at hstep
    by_cases hgoal : (a :: rest).getD (findLowestFIndex s.nd (a :: rest)) ⟨0, 0, 0⟩ = endC
    · rw [if_pos hgoal] at hstep
      exact absurd hstep (by simp)
    · rw [if_neg hgoal] at hstep
      have hstep' : ((getManhattanNeighbors grid
          ((a :: rest).getD (findLowestFIndex s.nd (a :: rest)) ⟨0, 0, 0⟩)).foldl
          (relaxNeighbor grid endC
            ((a :: rest).getD (findLowestFIndex s.nd (a :: rest)) ⟨0, 0, 0⟩))
          ⟨(a :: rest).eraseIdx (findLowestFIndex s.nd (a :: rest)),
           s.closedSet ++ [(a :: rest).getD (findLowestFIndex s.nd (a :: rest)) ⟨0, 0, 0⟩],
           s.nd⟩) = s' := by
        injection hstep
      set current := (a :: rest).getD (findLowestFIndex s.nd (a :: rest)) ⟨0, 0, 0⟩ with hcdef
      have hcur_mem : current ∈ s.openSet := by
        rw [hopen]
        apply getD_mem_of_lt
        exact (findLowestFIndex_spec s.nd (a :: rest) (by simp)).1
      rw [← hstep']
      apply foldl_relax_pathInv
      · constructor
        · intro c p hp
          exact hinv.par_unblocked c p hp
        · intro c p hp
          simp only [List.mem_append]
          exact Or.inl (hinv.par_closed c p hp)
        · intro c hc
          apply hinv.mem_par c
          rcases hc with hc | hc
          · left
            rw [hopen]
            exact List.mem_of_mem_eraseIdx hc
          · simp only [List.mem_append, List.mem_singleton] at hc
            rcases hc with hc | hc
            · exact Or.inr hc
            · subst hc
              exact Or.inl hcur_mem
      · simp

/-- Under the path invariant, every cell of a reconstructed parent chain that
is not the start cell is unblocked. -/
theorem reconstructPath_tail_unblocked (grid : Grid) (start : Coord) (s : AState)
    (hinv : PathInv grid start s) :
    ∀ (fuel : Nat) (c : Coord), (c = start ∨ (s.nd c).parent ≠ none) →
    ∀ x ∈ reconstructPath s.nd c fuel, x ≠ start → grid.blocked x = false := by
  intro fuel
  induction fuel with
  | zero =>
    intro c hc x hx
    simp [reconstructPath] at hx
  | succ fuel ih =>
    intro c hc x hx hxs
    rw [reconstructPath] at hx
    cases hp : (s.nd c).parent with
    | none =>
      rw [hp] at hx
      simp only [List.mem_singleton] at hx
      subst hx
      rcases hc with rfl | hne
      · exact absurd rfl hxs
      · exact absurd hp hne
    | some p =>
      rw [hp] at hx
      rw [List.mem_append] at hx
      rcases hx with hx | hx
      · exact ih p (hinv.mem_par p (Or.inr (hinv.par_closed c p hp))) x hx hxs
      · simp only [List.mem_singleton] at hx
        subst hx
        exact hinv.par_unblocked _ p hp

/-- Under the path invariant, every non-start cell of the list returned by
the search loop is unblocked. -/
theorem aStarLoop_tail_unblocked (grid : Grid) (start endC : Coord) (reconFuel : Nat) :
    ∀ (fuel : Nat) (s : AState), PathInv grid start s →
    ∀ x ∈ aStarLoop grid endC reconFuel fuel s, x ≠ start → grid.blocked x = false := by
  intro fuel
  induction fuel with
  | zero =>
    intro s hinv x hx
    simp [aStarLoop] at hx
  | succ fuel ih =>
    intro s hinv x hx hxs
    rw [aStarLoop] at hx
    cases hstep : aStarStep grid endC reconFuel s with
    | noPath =>
      rw [hstep] at hx
      simp at hx
    | next s' =>
      rw [hstep] at hx
      exact ih s' (aStarStep_pathInv grid start endC reconFuel s s' hinv hstep) x hx hxs
    | found p =>
      rw [hstep] at hx
      -- the found path is a reconstruction from a popped open node
      unfold aStarStep at hstep
      cases hopen : s.openSet with
      | nil =>
        rw [hopen] at hstep
        exact absurd hstep (by simp)
      | cons a rest =>
        rw [hopen] at hstep
        dsimp only at hstep
        by_cases hgoal : (a :: rest).getD (findLowestFIndex s.nd (a :: rest)) ⟨0, 0, 0⟩ = endC
        · rw [if_pos hgoal] at hstep
          have hp : reconstructPath s.nd
              ((a :: rest).getD (findLowestFIndex s.nd (a :: rest)) ⟨0, 0, 0⟩) reconFuel = p := by
            injection hstep
          have hcur_mem : (a :: rest).getD (findLowestFIndex s.nd (a :: rest)) ⟨0, 0, 0⟩
              ∈ s.openSet := by
            rw [hopen]
            apply getD_mem_of_lt
            exact (findLowestFIndex_spec s.nd (a :: rest) (by simp)).1
          rw [← hp] at hx
          exact reconstructPath_tail_unblocked grid start s hinv reconFuel _
            (hinv.mem_par _ (Or.inl hcur_mem)) x hx hxs
        · rw [if_neg hgoal] at hstep
          exact absurd hstep (by simp)

/-- C5 amended: for every grid, endpoints and resolution, every cell on the
path returned by `aStar` other than the start cell is not marked blocked in
the grid used to compute it.  (The start cell itself is exempt: its obstacle
flag is never checked, as the counterexample shows.) -/
theorem C5_path_tail_unblocked (grid : Grid) (start endC : Coord) (res : ℚ) (c : Coord)
    (hc : c ∈ aStar grid start endC res) (hne : c ≠ start) :
    grid.blocked c = false := by
  unfold aStar at hc
  by_cases hb : (inBounds grid start && inBounds grid endC) = true
  · rw [if_pos hb] at hc
    apply aStarLoop_tail_unblocked grid start endC (totalCells grid + 1)
      (totalCells grid + 1) (initState start endC) ?_ c hc hne
    constructor
    · intro d p hp
      by_cases hd : d = start
      · subst hd
        simp [initState, updateNd] at hp
      · simp [initState, updateNd, hd, initNodeData] at hp
    · intro d p hp
      by_cases hd : d = start
      · subst hd
        simp [initState, updateNd] at hp
      · simp [initState, updateNd, hd, initNodeData] at hp
    · intro d hd
      rcases hd with hd | hd
      · simp only [initState, List.mem_singleton] at hd
        exact Or.inl hd
      · simp [initState] at hd
  · rw [if_neg hb] at hc
    simp at hc

/-- Witness for C5's amended theorem on the empty 2-cell grid: the non-start
path cell `(1,0,0)` is unblocked. -/
theorem C5_path_tail_unblocked_witness :
    (⟨1, 0, 0⟩ : Coord) ∈ aStar grid2 ⟨0, 0, 0⟩ ⟨1, 0, 0⟩ 10
    ∧ ((⟨1, 0, 0⟩ : Coord) ≠ ⟨0, 0, 0⟩)
    ∧ grid2.blocked ⟨1, 0, 0⟩ = false :=
  ⟨by decide, by decide,
   C5_path_tail_unblocked grid2 ⟨0, 0, 0⟩ ⟨1, 0, 0⟩ 10 ⟨1, 0, 0⟩ (by decide) (by decide)⟩

-- ============================================================================
-- A* OPTIMALITY ON OBSTACLE-FREE GRIDS (C4)
-- ============================================================================
/-- The Manhattan heuristic of a cell to itself is zero. -/
theorem heuristic_self (a : Coord) : heuristic a a = 0 := by
  simp [heuristic]

/-- Cells at Manhattan distance zero coincide. -/
theorem heuristic_eq_zero {a b : Coord} (h : heuristic a b = 0) : a = b := by
  cases a with
  | mk ax ay az =>
    cases b with
    | mk bx by' bz =>
      simp only [heuristic] at h
      simp only [Coord.mk.injEq]
      omega

/-- Triangle inequality of the Manhattan heuristic. -/
theorem heuristic_triangle (a b c : Coord) :
    heuristic a c ≤ heuristic a b + heuristic b c := by
  simp only [heuristic]
  omega

/-- Generated neighbours are in bounds and at Manhattan distance one, in
both directions. -/
theorem mem_neighbors_facts {grid : Grid} {c n : Coord}
    (h : n ∈ getManhattanNeighbors grid c) :
    inBounds grid n = true ∧ heuristic c n = 1 ∧ heuristic n c = 1 := by
  rw [getManhattanNeighbors, List.mem_filterMap] at h
  obtain ⟨d, hd, hfd⟩ := h
  by_cases hb : inBounds grid ⟨c.x + d.x, c.y + d.y, c.z + d.z⟩ = true
  · rw [if_pos hb] at hfd
    have hn : n = ⟨c.x + d.x, c.y + d.y, c.z + d.z⟩ := by
      injection hfd with h'
      exact h'.symm
    subst hn
    refine ⟨hb, ?_, ?_⟩ <;>
    · simp only [directions, List.mem_cons, List.mem_singleton] at hd
      rcases hd with rfl | rfl | rfl | rfl | rfl | rfl | hd
      all_goals try (simp only [heuristic]; omega)
      exact absurd hd (List.not_mem_nil d)
  · rw [if_neg hb] at hfd
    exact absurd hfd (by simp)

/-- Membership introduction for the neighbour list. -/
theorem neighbors_mem_intro (grid : Grid) (p : Coord) (d : Coord) (hd : d ∈ directions)
    (hb : inBounds grid ⟨p.x + d.x, p.y + d.y, p.z + d.z⟩ = true) :
    (⟨p.x + d.x, p.y + d.y, p.z + d.z⟩ : Coord) ∈ getManhattanNeighbors grid p := by
  rw [getManhattanNeighbors, List.mem_filterMap]
  exact ⟨d, hd, by rw [if_pos hb]⟩

/-- Membership introduction with scalar coordinates. -/
theorem neighbors_mem_intro2 (grid : Grid) (px py pz dx dy dz : Int)
    (hd : (⟨dx, dy, dz⟩ : Coord) ∈ directions) (n : Coord)
    (heq : n = ⟨px + dx, py + dy, pz + dz⟩) (hb : inBounds grid n = true) :
    n ∈ getManhattanNeighbors grid ⟨px, py, pz⟩ := by
  subst heq
  exact neighbors_mem_intro grid ⟨px, py, pz⟩ ⟨dx, dy, dz⟩ hd hb

/-- On the bounded grid box there is always a next cell from `t` one step
closer to `start`, adjacent to `t` in both directions. -/
theorem step_toward (grid : Grid) (start t : Coord)
    (hs : inBounds grid start = true) (ht : inBounds grid t = true)
    (hne : heuristic start t ≠ 0) :
    ∃ p, inBounds grid p = true ∧ heuristic start p + 1 = heuristic start t
      ∧ t ∈ getManhattanNeighbors grid p ∧ p ∈ getManhattanNeighbors grid t := by
  obtain ⟨sx, sy, sz⟩ := start
  obtain ⟨tx, ty, tz⟩ := t
  simp only [inBounds, decide_eq_true_eq] at hs ht
  simp only [heuristic] at hne
  by_cases hx : sx = tx
  · by_cases hy : sy = ty
    · have hq : sz < tz ∨ tz < sz := by omega
      clear hne
      rcases hq with hlt | hlt
      · refine ⟨⟨tx, ty, tz - 1⟩, ?_, ?_, ?_, ?_⟩
        · simp only [inBounds, decide_eq_true_eq]
          omega
        · simp only [heuristic]
          omega
        · refine neighbors_mem_intro2 grid _ _ _ 0 0 1 (by simp [directions]) _ ?_ ?_
          · simp <;> omega
          · simp only [inBounds, decide_eq_true_eq]
            omega
        · refine neighbors_mem_intro2 grid _ _ _ 0 0 (-1) (by simp [directions]) _ ?_ ?_
          · simp <;> omega
          · simp only [inBounds, decide_eq_true_eq]
            omega
      · refine ⟨⟨tx, ty, tz + 1⟩, ?_, ?_, ?_, ?_⟩
        · simp only [inBounds, decide_eq_true_eq]
          omega
        · simp only [heuristic]
          omega
        · refine neighbors_mem_intro2 grid _ _ _ 0 0 (-1) (by simp [directions]) _ ?_ ?_
          · simp <;> omega
          · simp only [inBounds, decide_eq_true_eq]
            omega
        · refine neighbors_mem_intro2 grid _ _ _ 0 0 1 (by simp [directions]) _ ?_ ?_
          · simp <;> omega
          · simp only [inBounds, decide_eq_true_eq]
            omega
    · have hq : sy < ty ∨ ty < sy := by omega
      clear hne
      rcases hq with hlt | hlt
      · refine ⟨⟨tx, ty - 1, tz⟩, ?_, ?_, ?_, ?_⟩
        · simp only [inBounds, decide_eq_true_eq]
          omega
        · simp only [heuristic]
          omega
        · refine neighbors_mem_intro2 grid _ _ _ 0 1 0 (by simp [directions]) _ ?_ ?_
          · simp <;> omega
          · simp only [inBounds, decide_eq_true_eq]
            omega
        · refine neighbors_mem_intro2 grid _ _ _ 0 (-1) 0 (by simp [directions]) _ ?_ ?_
          · simp <;> omega
          · simp only [inBounds, decide_eq_true_eq]
            omega
      · refine ⟨⟨tx, ty + 1, tz⟩, ?_, ?_, ?_, ?_⟩
        · simp only [inBounds, decide_eq_true_eq]
          omega
        · simp only [heuristic]
          omega
        · refine neighbors_mem_intro2 grid _ _ _ 0 (-1) 0 (by simp [directions]) _ ?_ ?_
          · simp <;> omega
          · simp only [inBounds, decide_eq_true_eq]
            omega
        · refine neighbors_mem_intro2 grid _ _ _ 0 1 0 (by simp [directions]) _ ?_ ?_
          · simp <;> omega
          · simp only [inBounds, decide_eq_true_eq]
            omega
  · have hq : sx < tx ∨ tx < sx := by omega
    clear hne
    rcases hq with hlt | hlt
    · refine ⟨⟨tx - 1, ty, tz⟩, ?_, ?_, ?_, ?_⟩
      · simp only [inBounds, decide_eq_true_eq]
        omega
      · simp only [heuristic]
        omega
      · refine neighbors_mem_intro2 grid _ _ _ 1 0 0 (by simp [directions]) _ ?_ ?_
        · simp <;> omega
        · simp only [inBounds, decide_eq_true_eq]
          omega
      · refine neighbors_mem_intro2 grid _ _ _ (-1) 0 0 (by simp [directions]) _ ?_ ?_
        · simp <;> omega
        · simp only [inBounds, decide_eq_true_eq]
          omega
    · refine ⟨⟨tx + 1, ty, tz⟩, ?_, ?_, ?_, ?_⟩
      · simp only [inBounds, decide_eq_true_eq]
        omega
      · simp only [heuristic]
        omega
      · refine neighbors_mem_intro2 grid _ _ _ (-1) 0 0 (by simp [directions]) _ ?_ ?_
        · simp <;> omega
        · simp only [inBounds, decide_eq_true_eq]
          omega
      · refine neighbors_mem_intro2 grid _ _ _ 1 0 0 (by simp [directions]) _ ?_ ?_
        · simp <;> omega
        · simp only [inBounds, decide_eq_true_eq]
          omega
/-- Coordinates with equal fields are equal. -/
theorem coord_eq_of_fields {a b : Coord} (hx : a.x = b.x) (hy : a.y = b.y)
    (hz : a.z = b.z) : a = b := by
  cases a
  cases b
  simp_all

/-- A duplicate-free list of in-bounds cells has at most `width*height*depth`
elements. -/
theorem nodup_inbounds_length_le (grid : Grid) (l : List Coord) (hnd : l.Nodup)
    (hin : ∀ c ∈ l, inBounds grid c = true) : l.length ≤ totalCells grid := by
  classical
  have hcard : l.toFinset.card = l.length := List.toFinset_card_of_nodup hnd
  rw [← hcard]
  have hsub : l.toFinset ⊆ ((Finset.range grid.width) ×ˢ (Finset.range grid.height)
      ×ˢ (Finset.range grid.depth)).image
      (fun t => (⟨(t.1 : Int), (t.2.1 : Int), (t.2.2 : Int)⟩ : Coord)) := by
    intro c hc
    rw [List.mem_toFinset] at hc
    have hb := hin c hc
    rw [inBounds, decide_eq_true_eq] at hb
    rw [Finset.mem_image]
    refine ⟨(c.x.toNat, c.y.toNat, c.z.toNat), ?_, ?_⟩
    · simp only [Finset.mem_product, Finset.mem_range]
      omega
    · refine coord_eq_of_fields ?_ ?_ ?_
      · show ((c.x.toNat : Int)) = c.x
        omega
      · show ((c.y.toNat : Int)) = c.y
        omega
      · show ((c.z.toNat : Int)) = c.z
        omega
  calc l.toFinset.card
      ≤ (((Finset.range grid.width) ×ˢ (Finset.range grid.height)
          ×ˢ (Finset.range grid.depth)).image
          (fun t => (⟨(t.1 : Int), (t.2.1 : Int), (t.2.2 : Int)⟩ : Coord))).card :=
        Finset.card_le_card hsub
    _ ≤ ((Finset.range grid.width) ×ˢ (Finset.range grid.height)
          ×ˢ (Finset.range grid.depth)).card := Finset.card_image_le
    _ = grid.width * (grid.height * grid.depth) := by
        simp [Finset.card_product]
    _ ≤ totalCells grid := by
        rw [totalCells, Nat.mul_assoc]

structure OptInv (grid : Grid) (start endC : Coord) (s : AState) : Prop where
  nodup_open : s.openSet.Nodup
  nodup_closed : s.closedSet.Nodup
  disj : ∀ c ∈ s.openSet, c ∉ s.closedSet
  open_inb : ∀ c ∈ s.openSet, inBounds grid c = true
  closed_inb : ∀ c ∈ s.closedSet, inBounds grid c = true
  g_start : (s.nd start).g = some 0
  start_mem : start ∈ s.openSet ∨ start ∈ s.closedSet
  closed_opt : ∀ c ∈ s.closedSet, (s.nd c).g = some (heuristic start c)
  open_g : ∀ c ∈ s.openSet, ∃ gc, (s.nd c).g = some gc ∧ heuristic start c ≤ gc
  open_f : ∀ c ∈ s.openSet, ∃ gc, (s.nd c).g = some gc
      ∧ (s.nd c).f = some (gc + heuristic c endC)
  edge : ∀ c ∈ s.closedSet, ∀ n ∈ getManhattanNeighbors grid c,
      n ∈ s.closedSet ∨ (n ∈ s.openSet ∧ ∃ gn, (s.nd n).g = some gn
        ∧ gn ≤ heuristic start c + 1)
  chain : ∀ c p, (s.nd c).parent = some p →
      ∃ gp gc, (s.nd p).g = some gp ∧ (s.nd c).g = some gc ∧ gc = gp + 1
  par_closed2 : ∀ c p, (s.nd c).parent = some p → p ∈ s.closedSet
  par_start : ∀ c, c ∈ s.openSet ∨ c ∈ s.closedSet → c = start ∨ (s.nd c).parent ≠ none
  end_not_closed : endC ∉ s.closedSet

theorem frontier_covering (grid : Grid) (start endC : Coord) (s : AState)
    (hinv : OptInv grid start endC s) (hs_inb : inBounds grid start = true) :
    ∀ (k : Nat) (t : Coord), heuristic start t = k → inBounds grid t = true →
    t ∉ s.closedSet →
    ∃ w ∈ s.openSet, (s.nd w).g = some (heuristic start w)
      ∧ heuristic start w + heuristic w t = heuristic start t := by
  intro k
  induction k using Nat.strong_induction_on with
  | _ k ih =>
    intro t hk ht hnc
    by_cases h0 : heuristic start t = 0
    · have hts : start = t := heuristic_eq_zero h0
      subst hts
      have hso : start ∈ s.openSet := by
        rcases hinv.start_mem with h | h
        · exact h
        · exact absurd h hnc
      refine ⟨start, hso, ?_, ?_⟩
      · rw [hinv.g_start, heuristic_self]
      · simp [heuristic_self]
    · obtain ⟨p, hp_inb, hp_dist, ht_mem, hp_mem⟩ := step_toward grid start t hs_inb ht h0
      by_cases hpc : p ∈ s.closedSet
      · rcases hinv.edge p hpc t ht_mem with htc | ⟨hto, gn, hgn, hle⟩
        · exact absurd htc hnc
        · obtain ⟨gt, hgt, hge⟩ := hinv.open_g t hto
          have hgn_gt : gn = gt := by
            rw [hgn] at hgt
            exact Option.some.inj hgt
          have hget : (s.nd t).g = some (heuristic start t) := by
            rw [hgt]
            congr 1
            omega
          refine ⟨t, hto, hget, ?_⟩
          rw [heuristic_self]
          omega
      · have hplt : heuristic start p < k := by omega
        obtain ⟨w, hw_open, hw_g, hw_dist⟩ := ih (heuristic start p) hplt p rfl hp_inb hpc
        refine ⟨w, hw_open, hw_g, ?_⟩
        have h1 : heuristic w t ≤ heuristic w p + heuristic p t := heuristic_triangle w p t
        have h2 : heuristic start t ≤ heuristic start w + heuristic w t :=
          heuristic_triangle start w t
        have h3 : heuristic p t = 1 := (mem_neighbors_facts ht_mem).2.1
        omega

theorem popped_g_optimal (grid : Grid) (start endC : Coord) (s : AState)
    (hinv : OptInv grid start endC s) (hs_inb : inBounds grid start = true)
    (hne : s.openSet ≠ []) :
    (s.nd (s.openSet.getD (findLowestFIndex s.nd s.openSet) ⟨0, 0, 0⟩)).g
      = some (heuristic start
          (s.openSet.getD (findLowestFIndex s.nd s.openSet) ⟨0, 0, 0⟩)) := by
  have hspec := findLowestFIndex_spec s.nd s.openSet hne
  set idx := findLowestFIndex s.nd s.openSet with hidxdef
  set cur := s.openSet.getD idx ⟨0, 0, 0⟩ with hcurdef
  have hcm : cur ∈ s.openSet := getD_mem_of_lt hspec.1 _
  have hcur_nc : cur ∉ s.closedSet := hinv.disj cur hcm
  have hcur_inb : inBounds grid cur = true := hinv.open_inb cur hcm
  obtain ⟨w, hw_open, hw_g, hw_dist⟩ := frontier_covering grid start endC s hinv hs_inb
    (heuristic start cur) cur rfl hcur_inb hcur_nc
  obtain ⟨j, hwj⟩ := List.mem_iff_get.mp hw_open
  have hj : (j : Nat) < s.openSet.length := j.isLt
  have hmin := hspec.2.1 (j : Nat) hj
  obtain ⟨gc, hgc, hfc⟩ := hinv.open_f cur hcm
  obtain ⟨gw0, hgw0, hfw⟩ := hinv.open_f w hw_open
  have hgw_eq : gw0 = heuristic start w := by
    rw [hw_g] at hgw0
    exact (Option.some.inj hgw0).symm
  have hopenFj : openF s.nd s.openSet (j : Nat) = (s.nd w).f := by
    rw [openF, List.getD_eq_getElem s.openSet ⟨0, 0, 0⟩ hj]
    rw [← hwj]
    rfl
  have hopenFidx : openF s.nd s.openSet idx = (s.nd cur).f := rfl
  rw [hopenFj, hopenFidx, hfw, hfc] at hmin
  have hle : gc + heuristic cur endC ≤ gw0 + heuristic w endC := by
    simp only [fLt, decide_eq_false_iff_not, not_lt] at hmin
    exact hmin
  have htri : heuristic w endC ≤ heuristic w cur + heuristic cur endC :=
    heuristic_triangle w cur endC
  obtain ⟨gc2, hgc2, hge2⟩ := hinv.open_g cur hcm
  have hgc_eq : gc = gc2 := by
    rw [hgc] at hgc2
    exact Option.some.inj hgc2
  rw [hgc]
  congr 1
  omega

theorem nodup_getD_not_mem_eraseIdx :
    ∀ (l : List Coord) (i : Nat), l.Nodup → i < l.length →
    l.getD i ⟨0, 0, 0⟩ ∉ l.eraseIdx i := by
  intro l
  induction l with
  | nil =>
    intro i _ h
    simp at h
  | cons x xs ih =>
    intro i hnd hi
    cases i with
    | zero =>
      simpa using (List.nodup_cons.mp hnd).1
    | succ j =>
      simp only [List.getD_cons_succ, List.eraseIdx_cons_succ, List.mem_cons, not_or]
      constructor
      · intro hEq
        have hmem : xs.getD j ⟨0, 0, 0⟩ ∈ xs :=
          getD_mem_of_lt (by simpa using hi) _
        rw [hEq] at hmem
        exact (List.nodup_cons.mp hnd).1 hmem
      · exact ih j (List.nodup_cons.mp hnd).2 (by simpa using hi)

theorem mem_eraseIdx_of_ne :
    ∀ (l : List Coord) (i : Nat) (x : Coord), x ∈ l → i < l.length →
    x ≠ l.getD i ⟨0, 0, 0⟩ → x ∈ l.eraseIdx i := by
  intro l
  induction l with
  | nil =>
    intro i x hx
    simp at hx
  | cons a xs ih =>
    intro i x hx hi hne
    cases i with
    | zero =>
      simp only [List.getD_cons_zero] at hne
      simp only [List.eraseIdx_cons_zero]
      rcases List.mem_cons.mp hx with rfl | hx
      · exact absurd rfl hne
      · exact hx
    | succ j =>
      simp only [List.getD_cons_succ] at hne
      simp only [List.eraseIdx_cons_succ, List.mem_cons]
      rcases List.mem_cons.mp hx with rfl | hx
      · exact Or.inl rfl
      · exact Or.inr (ih j x hx (by simpa using hi) hne)

theorem mem_of_mem_eraseIdx {l : List Coord} {i : Nat} {x : Coord}
    (h : x ∈ l.eraseIdx i) : x ∈ l :=
  (List.eraseIdx_sublist l i).subset h

/-- The behaviour of one neighbour relaxation on an unblocked cell: exactly
one of skip-closed, skip-not-better, improve-in-place, or push-fresh. -/
theorem relaxNeighbor_cases (grid : Grid) (endC current : Coord) (s : AState) (n : Coord)
    (hnb : grid.blocked n = false) :
    (n ∈ s.closedSet ∧ relaxNeighbor grid endC current s n = s)
    ∨ (n ∉ s.closedSet ∧ n ∈ s.openSet
        ∧ gGe ((s.nd current).g.map (· + 1)) (s.nd n).g = true
        ∧ relaxNeighbor grid endC current s n = s)
    ∨ (n ∉ s.closedSet ∧ n ∈ s.openSet
        ∧ gGe ((s.nd current).g.map (· + 1)) (s.nd n).g = false
        ∧ relaxNeighbor grid endC current s n
          = { s with nd := updateNd s.nd n ⟨(s.nd current).g.map (· + 1), heuristic n endC,
              ((s.nd current).g.map (· + 1)).map (· + heuristic n endC), some current⟩ })
    ∨ (n ∉ s.closedSet ∧ n ∉ s.openSet
        ∧ relaxNeighbor grid endC current s n
          = { openSet := s.openSet ++ [n], closedSet := s.closedSet,
              nd := updateNd s.nd n ⟨(s.nd current).g.map (· + 1), heuristic n endC,
              ((s.nd current).g.map (· + 1)).map (· + heuristic n endC), some current⟩ }) := by
  by_cases h1 : n ∈ s.closedSet
  · left
    refine ⟨h1, ?_⟩
    unfold relaxNeighbor
    rw [if_pos (Or.inl h1)]
  · have hguard : ¬ (n ∈ s.closedSet ∨ grid.blocked n = true) := by
      simp [h1, hnb]
    by_cases h2 : n ∈ s.openSet
    · by_cases h3 : gGe ((s.nd current).g.map (· + 1)) (s.nd n).g = true
      · right; left
        refine ⟨h1, h2, h3, ?_⟩
        unfold relaxNeighbor
        rw [if_neg hguard]
        dsimp only
        rw [if_pos h2, if_pos h3]
      · have h3' : gGe ((s.nd current).g.map (· + 1)) (s.nd n).g = false := by
          cases hv : gGe ((s.nd current).g.map (· + 1)) (s.nd n).g with
          | false => rfl
          | true => exact absurd hv h3
        right; right; left
        refine ⟨h1, h2, h3', ?_⟩
        unfold relaxNeighbor
        rw [if_neg hguard]
        dsimp only
        rw [if_pos h2, if_neg h3]
    · right; right; right
      refine ⟨h1, h2, ?_⟩
      unfold relaxNeighbor
      rw [if_neg hguard]
      dsimp only
      rw [if_neg h2]

/-- Reading an updated node map. -/
theorem updateNd_apply (nd : Coord → NodeData) (c : Coord) (v : NodeData) (d : Coord) :
    updateNd nd c v d = if d = c then v else nd d := rfl

/-- The node data written by `relaxNeighbor` for a neighbour `n` of an
expanded node `current` whose `g` is already optimal. -/
def relaxData (start current endC n : Coord) : NodeData :=
  ⟨some (heuristic start current + 1), heuristic n endC,
   some (heuristic start current + 1 + heuristic n endC), some current⟩

theorem relaxData_g (start current endC n : Coord) :
    (relaxData start current endC n).g = some (heuristic start current + 1) := rfl

theorem relaxData_f (start current endC n : Coord) :
    (relaxData start current endC n).f
      = some (heuristic start current + 1 + heuristic n endC) := rfl

theorem relaxData_parent (start current endC n : Coord) :
    (relaxData start current endC n).parent = some current := rfl

/-- Postcondition of relaxing neighbour `n` of the expanded node `c`: `n` is
closed, or open with a recorded cost at most `δ(c) + 1`. -/
def NbrDone (start : Coord) (s : AState) (c n : Coord) : Prop :=
  n ∈ s.closedSet ∨ (n ∈ s.openSet ∧ ∃ gn, (s.nd n).g = some gn
    ∧ gn ≤ heuristic start c + 1)

/-- The optimality invariant in the middle of the relaxation fold of one
expansion: all fields of `OptInv`, except that the edge property is only
guaranteed for the previously expanded nodes, plus the facts recorded about
the node `current` being expanded. -/
structure MidInv (grid : Grid) (start endC current : Coord) (s : AState) : Prop where
  nodup_open : s.openSet.Nodup
  nodup_closed : s.closedSet.Nodup
  disj : ∀ c ∈ s.openSet, c ∉ s.closedSet
  open_inb : ∀ c ∈ s.openSet, inBounds grid c = true
  closed_inb : ∀ c ∈ s.closedSet, inBounds grid c = true
  g_start : (s.nd start).g = some 0
  start_mem : start ∈ s.openSet ∨ start ∈ s.closedSet
  closed_opt : ∀ c ∈ s.closedSet, (s.nd c).g = some (heuristic start c)
  open_g : ∀ c ∈ s.openSet, ∃ gc, (s.nd c).g = some gc ∧ heuristic start c ≤ gc
  open_f : ∀ c ∈ s.openSet, ∃ gc, (s.nd c).g = some gc
      ∧ (s.nd c).f = some (gc + heuristic c endC)
  edge_old : ∀ c ∈ s.closedSet, c ≠ current →
      ∀ n ∈ getManhattanNeighbors grid c, NbrDone start s c n
  chain : ∀ c p, (s.nd c).parent = some p →
      ∃ gp gc, (s.nd p).g = some gp ∧ (s.nd c).g = some gc ∧ gc = gp + 1
  par_closed2 : ∀ c p, (s.nd c).parent = some p → p ∈ s.closedSet
  par_start : ∀ c, c ∈ s.openSet ∨ c ∈ s.closedSet → c = start ∨ (s.nd c).parent ≠ none
  end_not_closed : endC ∉ s.closedSet
  cur_closed : current ∈ s.closedSet
  cur_g : (s.nd current).g = some (heuristic start current)

/-- Writing `relaxData` into the node map of a mid-expansion state — with the
open set either unchanged (the improving update of an already-open neighbour)
or extended by the fresh neighbour — preserves the mid-fold invariant. -/
theorem mid_relax_update (grid : Grid) (start endC current : Coord) (s : AState)
    (n : Coord) (hmid : MidInv grid start endC current s)
    (hn_inb : inBounds grid n = true) (hd1 : heuristic current n = 1)
    (hc : n ∉ s.closedSet) (newOpen : List Coord)
    (hcase : (n ∈ s.openSet ∧ newOpen = s.openSet)
      ∨ (n ∉ s.openSet ∧ newOpen = s.openSet ++ [n]))
    (himp : n ∈ s.openSet → ∀ gm, (s.nd n).g = some gm
      → heuristic start current + 1 ≤ gm) :
    MidInv grid start endC current
      { openSet := newOpen, closedSet := s.closedSet,
        nd := updateNd s.nd n (relaxData start current endC n) } := by
  have hcur_ne_n : current ≠ n := fun h => hc (h ▸ hmid.cur_closed)
  have hstart_ne_n : start ≠ n := by
    intro h
    rcases hcase with ⟨ho, -⟩ | ⟨ho, -⟩
    · have := himp ho 0 (by rw [← h]; exact hmid.g_start)
      omega
    · rcases hmid.start_mem with hs | hs
      · exact ho (h ▸ hs)
      · exact hc (h ▸ hs)
  have hδn : heuristic start n ≤ heuristic start current + 1 := by
    have := heuristic_triangle start current n
    omega
  have hmem : ∀ c : Coord, c ∈ newOpen ↔ (c ∈ s.openSet ∨ c = n) := by
    intro c
    rcases hcase with ⟨ho, hEq⟩ | ⟨ho, hEq⟩
    · subst hEq
      constructor
      · exact Or.inl
      · rintro (h | h)
        · exact h
        · rw [h]; exact ho
    · subst hEq
      simp
  refine ⟨?_, hmid.nodup_closed, ?_, ?_, hmid.closed_inb, ?_, ?_, ?_, ?_, ?_, ?_, ?_, ?_,
    ?_, hmid.end_not_closed, hmid.cur_closed, ?_⟩
  · -- nodup_open
    rcases hcase with ⟨ho, hEq⟩ | ⟨ho, hEq⟩
    · rw [hEq]; exact hmid.nodup_open
    · rw [hEq, List.nodup_append]
      refine ⟨hmid.nodup_open, List.nodup_singleton n, ?_⟩
      intro a ha hb
      rw [List.mem_singleton] at hb
      exact ho (hb ▸ ha)
  · -- disj
    intro c hcm hccl
    rcases (hmem c).mp hcm with h | h
    · exact hmid.disj c h hccl
    · exact hc (h ▸ hccl)
  · -- open_inb
    intro c hcm
    rcases (hmem c).mp hcm with h | h
    · exact hmid.open_inb c h
    · rw [h]; exact hn_inb
  · -- g_start
    show ((updateNd s.nd n (relaxData start current endC n)) start).g = some 0
    rw [updateNd_apply, if_neg hstart_ne_n]
    exact hmid.g_start
  · -- start_mem
    rcases hmid.start_mem with h | h
    · exact Or.inl ((hmem start).mpr (Or.inl h))
    · exact Or.inr h
  · -- closed_opt
    intro c hc2
    have hcn : c ≠ n := fun h => hc (h ▸ hc2)
    show ((updateNd s.nd n (relaxData start current endC n)) c).g = _
    rw [updateNd_apply, if_neg hcn]
    exact hmid.closed_opt c hc2
  · -- open_g
    intro c hcm
    by_cases hcn : c = n
    · refine ⟨heuristic start current + 1, ?_, ?_⟩
      · show ((updateNd s.nd n (relaxData start current endC n)) c).g = _
        rw [hcn, updateNd_apply, if_pos rfl, relaxData_g]
      · rw [hcn]; exact hδn
    · have hco : c ∈ s.openSet := by
        rcases (hmem c).mp hcm with h | h
        · exact h
        · exact absurd h hcn
      obtain ⟨gc, hg, hb⟩ := hmid.open_g c hco
      refine ⟨gc, ?_, hb⟩
      show ((updateNd s.nd n (relaxData start current endC n)) c).g = _
      rw [updateNd_apply, if_neg hcn]
      exact hg
  · -- open_f
    intro c hcm
    by_cases hcn : c = n
    · refine ⟨heuristic start current + 1, ?_, ?_⟩
      · show ((updateNd s.nd n (relaxData start current endC n)) c).g = _
        rw [hcn, updateNd_apply, if_pos rfl, relaxData_g]
      · show ((updateNd s.nd n (relaxData start current endC n)) c).f = _
        rw [hcn, updateNd_apply, if_pos rfl, relaxData_f]
    · have hco : c ∈ s.openSet := by
        rcases (hmem c).mp hcm with h | h
        · exact h
        · exact absurd h hcn
      obtain ⟨gc, hg, hf⟩ := hmid.open_f c hco
      refine ⟨gc, ?_, ?_⟩
      · show ((updateNd s.nd n (relaxData start current endC n)) c).g = _
        rw [updateNd_apply, if_neg hcn]
        exact hg
      · show ((updateNd s.nd n (relaxData start current endC n)) c).f = _
        rw [updateNd_apply, if_neg hcn]
        exact hf
  · -- edge_old
    intro c hcc hcne m hm
    rcases hmid.edge_old c hcc hcne m hm with hmcl | ⟨hmo, gm, hgm, hbound⟩
    · exact Or.inl hmcl
    · right
      refine ⟨(hmem m).mpr (Or.inl hmo), ?_⟩
      by_cases hmn : m = n
      · refine ⟨heuristic start current + 1, ?_, ?_⟩
        · show ((updateNd s.nd n (relaxData start current endC n)) m).g = _
          rw [hmn, updateNd_apply, if_pos rfl, relaxData_g]
        · have := himp (hmn ▸ hmo) gm (hmn ▸ hgm)
          omega
      · refine ⟨gm, ?_, hbound⟩
        show ((updateNd s.nd n (relaxData start current endC n)) m).g = _
        rw [updateNd_apply, if_neg hmn]
        exact hgm
  · -- chain
    intro c p hp
    have hp2 : ((updateNd s.nd n (relaxData start current endC n)) c).parent = some p := hp
    by_cases hcn : c = n
    · rw [hcn, updateNd_apply, if_pos rfl, relaxData_parent] at hp2
      have hpc : current = p := Option.some.inj hp2
      have hpn : p ≠ n := fun h => hcur_ne_n (hpc.trans h)
      refine ⟨heuristic start current, heuristic start current + 1, ?_, ?_, rfl⟩
      · show ((updateNd s.nd n (relaxData start current endC n)) p).g = _
        rw [updateNd_apply, if_neg hpn, ← hpc]
        exact hmid.cur_g
      · show ((updateNd s.nd n (relaxData start current endC n)) c).g = _
        rw [hcn, updateNd_apply, if_pos rfl, relaxData_g]
    · rw [updateNd_apply, if_neg hcn] at hp2
      obtain ⟨gp, gc, hgp, hgc, hsum⟩ := hmid.chain c p hp2
      have hpcl : p ∈ s.closedSet := hmid.par_closed2 c p hp2
      have hpn : p ≠ n := fun h => hc (h ▸ hpcl)
      refine ⟨gp, gc, ?_, ?_, hsum⟩
      · show ((updateNd s.nd n (relaxData start current endC n)) p).g = _
        rw [updateNd_apply, if_neg hpn]
        exact hgp
      · show ((updateNd s.nd n (relaxData start current endC n)) c).g = _
        rw [updateNd_apply, if_neg hcn]
        exact hgc
  · -- par_closed2
    intro c p hp
    have hp2 : ((updateNd s.nd n (relaxData start current endC n)) c).parent = some p := hp
    by_cases hcn : c = n
    · rw [hcn, updateNd_apply, if_pos rfl, relaxData_parent] at hp2
      rw [← Option.some.inj hp2]
      exact hmid.cur_closed
    · rw [updateNd_apply, if_neg hcn] at hp2
      exact hmid.par_closed2 c p hp2
  · -- par_start
    intro c hcm
    by_cases hcn : c = n
    · right
      show ((updateNd s.nd n (relaxData start current endC n)) c).parent ≠ none
      rw [hcn, updateNd_apply, if_pos rfl, relaxData_parent]
      simp
    · have hold : c ∈ s.openSet ∨ c ∈ s.closedSet := by
        rcases hcm with h | h
        · rcases (hmem c).mp h with h2 | h2
          · exact Or.inl h2
          · exact absurd h2 hcn
        · exact Or.inr h
      rcases hmid.par_start c hold with h2 | h2
      · exact Or.inl h2
      · right
        show ((updateNd s.nd n (relaxData start current endC n)) c).parent ≠ none
        rw [updateNd_apply, if_neg hcn]
        exact h2
  · -- cur_g
    show ((updateNd s.nd n (relaxData start current endC n)) current).g = _
    rw [updateNd_apply, if_neg hcur_ne_n]
    exact hmid.cur_g

/-- One relaxation step of a neighbour of `current` preserves the mid-fold
invariant, establishes the neighbour's postcondition, and keeps every
already-established postcondition. -/
theorem relax_preserves_mid (grid : Grid) (start endC current : Coord) (s : AState)
    (n : Coord) (hmid : MidInv grid start endC current s)
    (hn : n ∈ getManhattanNeighbors grid current)
    (hblocked : ∀ c, grid.blocked c = false) :
    MidInv grid start endC current (relaxNeighbor grid endC current s n)
    ∧ NbrDone start (relaxNeighbor grid endC current s n) current n
    ∧ (∀ m, NbrDone start s current m →
        NbrDone start (relaxNeighbor grid endC current s n) current m) := by
  obtain ⟨hn_inb, hd1, hd2⟩ := mem_neighbors_facts hn
  have htg : (s.nd current).g.map (· + 1) = some (heuristic start current + 1) := by
    rw [hmid.cur_g]; rfl
  rcases relaxNeighbor_cases grid endC current s n (hblocked n) with
    ⟨hcl, heq⟩ | ⟨hcl, ho, hge, heq⟩ | ⟨hcl, ho, hge, heq⟩ | ⟨hcl, ho, heq⟩
  · -- n already closed: nothing changes
    rw [heq]
    exact ⟨hmid, Or.inl hcl, fun m hm => hm⟩
  · -- n open with a cost at least as good: nothing changes
    rw [heq]
    refine ⟨hmid, ?_, fun m hm => hm⟩
    obtain ⟨gn, hgn, -⟩ := hmid.open_g n ho
    rw [htg, hgn] at hge
    simp only [gGe, decide_eq_true_eq] at hge
    exact Or.inr ⟨ho, gn, hgn, hge⟩
  · -- improving update of an already-open neighbour
    have himp : n ∈ s.openSet → ∀ gm, (s.nd n).g = some gm
        → heuristic start current + 1 ≤ gm := by
      intro _ gm hgm
      rw [htg, hgm] at hge
      simp only [gGe, decide_eq_false_iff_not] at hge
      omega
    have heq2 : relaxNeighbor grid endC current s n
        = { openSet := s.openSet, closedSet := s.closedSet,
            nd := updateNd s.nd n (relaxData start current endC n) } := by
      rw [heq, htg]
      rfl
    rw [heq2]
    refine ⟨mid_relax_update grid start endC current s n hmid hn_inb hd1 hcl
      s.openSet (Or.inl ⟨ho, rfl⟩) himp, ?_, ?_⟩
    · right
      refine ⟨ho, heuristic start current + 1, ?_, le_refl _⟩
      show ((updateNd s.nd n (relaxData start current endC n)) n).g = _
      rw [updateNd_apply, if_pos rfl, relaxData_g]
    · intro m hm
      rcases hm with hmcl | ⟨hmo, gm, hgm, hb⟩
      · exact Or.inl hmcl
      · right
        by_cases hmn : m = n
        · refine ⟨hmo, heuristic start current + 1, ?_, le_refl _⟩
          show ((updateNd s.nd n (relaxData start current endC n)) m).g = _
          rw [hmn, updateNd_apply, if_pos rfl, relaxData_g]
        · refine ⟨hmo, gm, ?_, hb⟩
          show ((updateNd s.nd n (relaxData start current endC n)) m).g = _
          rw [updateNd_apply, if_neg hmn]
          exact hgm
  · -- fresh neighbour pushed onto the open set
    have heq2 : relaxNeighbor grid endC current s n
        = { openSet := s.openSet ++ [n], closedSet := s.closedSet,
            nd := updateNd s.nd n (relaxData start current endC n) } := by
      rw [heq, htg]
      rfl
    rw [heq2]
    refine ⟨mid_relax_update grid start endC current s n hmid hn_inb hd1 hcl
      (s.openSet ++ [n]) (Or.inr ⟨ho, rfl⟩) (fun hno => absurd hno ho), ?_, ?_⟩
    · right
      refine ⟨List.mem_append.mpr (Or.inr (List.mem_singleton.mpr rfl)),
        heuristic start current + 1, ?_, le_refl _⟩
      show ((updateNd s.nd n (relaxData start current endC n)) n).g = _
      rw [updateNd_apply, if_pos rfl, relaxData_g]
    · intro m hm
      rcases hm with hmcl | ⟨hmo, gm, hgm, hb⟩
      · exact Or.inl hmcl
      · have hmn : m ≠ n := fun h => ho (h ▸ hmo)
        right
        refine ⟨List.mem_append.mpr (Or.inl hmo), gm, ?_, hb⟩
        show ((updateNd s.nd n (relaxData start current endC n)) m).g = _
        rw [updateNd_apply, if_neg hmn]
        exact hgm

/-- Folding `relaxNeighbor` over a sublist of the neighbours of `current`
preserves the mid-fold invariant, establishes the postcondition for every
element of the list, and keeps every previously established postcondition. -/
theorem foldl_relax_mid (grid : Grid) (start endC current : Coord)
    (hblocked : ∀ c, grid.blocked c = false) :
    ∀ (l : List Coord) (s : AState), MidInv grid start endC current s →
    (∀ n ∈ l, n ∈ getManhattanNeighbors grid current) →
    MidInv grid start endC current (l.foldl (relaxNeighbor grid endC current) s)
    ∧ (∀ n ∈ l, NbrDone start (l.foldl (relaxNeighbor grid endC current) s) current n)
    ∧ (∀ m, NbrDone start s current m →
        NbrDone start (l.foldl (relaxNeighbor grid endC current) s) current m) := by
  intro l
  induction l with
  | nil =>
    intro s hmid _
    refine ⟨hmid, ?_, fun m hm => hm⟩
    intro n hn
    cases hn
  | cons n rest ih =>
    intro s hmid hl
    obtain ⟨hmid1, hdone1, hmono1⟩ := relax_preserves_mid grid start endC current s n hmid
      (hl n (List.mem_cons_self n rest)) hblocked
    obtain ⟨hmidF, hdoneF, hmonoF⟩ := ih (relaxNeighbor grid endC current s n) hmid1
      (fun m hm => hl m (List.mem_cons_of_mem n hm))
    refine ⟨hmidF, ?_, fun m hm => hmonoF m (hmono1 m hm)⟩
    intro m hm
    rcases List.mem_cons.mp hm with h | h
    · exact h ▸ hmonoF n hdone1
    · exact hdoneF m h

/-- Popping the lowest-`f` node of a state satisfying the optimality
invariant — removing it from the open set and appending it to the closed
set — yields the mid-fold invariant for that node. -/
theorem mid_of_pop (grid : Grid) (start endC : Coord) (s : AState)
    (hinv : OptInv grid start endC s) (hs_inb : inBounds grid start = true)
    (hne : s.openSet ≠ []) :
    MidInv grid start endC (s.openSet.getD (findLowestFIndex s.nd s.openSet) ⟨0, 0, 0⟩)
      { openSet := s.openSet.eraseIdx (findLowestFIndex s.nd s.openSet),
        closedSet := s.closedSet
          ++ [s.openSet.getD (findLowestFIndex s.nd s.openSet) ⟨0, 0, 0⟩],
        nd := s.nd }
    ∨ s.openSet.getD (findLowestFIndex s.nd s.openSet) ⟨0, 0, 0⟩ = endC := by
  by_cases hcur_ne : s.openSet.getD (findLowestFIndex s.nd s.openSet) ⟨0, 0, 0⟩ = endC
  · exact Or.inr hcur_ne
  left
  have hidx : findLowestFIndex s.nd s.openSet < s.openSet.length :=
    (findLowestFIndex_spec s.nd s.openSet hne).1
  have hgopt := popped_g_optimal grid start endC s hinv hs_inb hne
  have hcm : s.openSet.getD (findLowestFIndex s.nd s.openSet) ⟨0, 0, 0⟩ ∈ s.openSet :=
    getD_mem_of_lt hidx _
  have hcur_nmem : s.openSet.getD (findLowestFIndex s.nd s.openSet) ⟨0, 0, 0⟩
      ∉ s.openSet.eraseIdx (findLowestFIndex s.nd s.openSet) :=
    nodup_getD_not_mem_eraseIdx s.openSet _ hinv.nodup_open hidx
  have hcur_ncl : s.openSet.getD (findLowestFIndex s.nd s.openSet) ⟨0, 0, 0⟩
      ∉ s.closedSet := hinv.disj _ hcm
  have hclosed2 : ∀ c : Coord,
      c ∈ s.closedSet ++ [s.openSet.getD (findLowestFIndex s.nd s.openSet) ⟨0, 0, 0⟩]
      ↔ c ∈ s.closedSet
        ∨ c = s.openSet.getD (findLowestFIndex s.nd s.openSet) ⟨0, 0, 0⟩ := by
    intro c
    simp
  refine ⟨?_, ?_, ?_, ?_, ?_, hinv.g_start, ?_, ?_, ?_, ?_, ?_, hinv.chain, ?_, ?_, ?_,
    ?_, hgopt⟩
  · exact List.Nodup.sublist (List.eraseIdx_sublist s.openSet _) hinv.nodup_open
  · rw [List.nodup_append]
    refine ⟨hinv.nodup_closed, List.nodup_singleton _, ?_⟩
    intro a ha hb
    rw [List.mem_singleton] at hb
    exact hcur_ncl (hb ▸ ha)
  · intro c hcm2 hccl
    have hco : c ∈ s.openSet := mem_of_mem_eraseIdx hcm2
    rcases (hclosed2 c).mp hccl with h | h
    · exact hinv.disj c hco h
    · exact hcur_nmem (h ▸ hcm2)
  · intro c hcm2
    exact hinv.open_inb c (mem_of_mem_eraseIdx hcm2)
  · intro c hccl
    rcases (hclosed2 c).mp hccl with h | h
    · exact hinv.closed_inb c h
    · rw [h]; exact hinv.open_inb _ hcm
  · rcases hinv.start_mem with h | h
    · by_cases hsc : start = s.openSet.getD (findLowestFIndex s.nd s.openSet) ⟨0, 0, 0⟩
      · exact Or.inr ((hclosed2 start).mpr (Or.inr hsc))
      · exact Or.inl (mem_eraseIdx_of_ne s.openSet _ start h hidx hsc)
    · exact Or.inr ((hclosed2 start).mpr (Or.inl h))
  · intro c hccl
    rcases (hclosed2 c).mp hccl with h | h
    · exact hinv.closed_opt c h
    · rw [h]; exact hgopt
  · intro c hcm2
    exact hinv.open_g c (mem_of_mem_eraseIdx hcm2)
  · intro c hcm2
    exact hinv.open_f c (mem_of_mem_eraseIdx hcm2)
  · intro c hccl hcne m hm
    have hcold : c ∈ s.closedSet := by
      rcases (hclosed2 c).mp hccl with h | h
      · exact h
      · exact absurd h hcne
    rcases hinv.edge c hcold m hm with h | ⟨hmo, gm, hgm, hb⟩
    · exact Or.inl ((hclosed2 m).mpr (Or.inl h))
    · by_cases hmc : m = s.openSet.getD (findLowestFIndex s.nd s.openSet) ⟨0, 0, 0⟩
      · exact Or.inl ((hclosed2 m).mpr (Or.inr hmc))
      · exact Or.inr ⟨mem_eraseIdx_of_ne s.openSet _ m hmo hidx hmc, gm, hgm, hb⟩
  · intro c p hp
    exact (hclosed2 p).mpr (Or.inl (hinv.par_closed2 c p hp))
  · intro c hcm2
    rcases hcm2 with h | h
    · exact hinv.par_start c (Or.inl (mem_of_mem_eraseIdx h))
    · rcases (hclosed2 c).mp h with h2 | h2
      · exact hinv.par_start c (Or.inr h2)
      · exact hinv.par_start c (Or.inl (h2 ▸ hcm))
  · intro hccl
    rcases (hclosed2 endC).mp hccl with h | h
    · exact hinv.end_not_closed h
    · exact hcur_ne h.symm
  · exact (hclosed2 _).mpr (Or.inr rfl)

/-- After the fold has established the postcondition for every neighbour of
the expanded node, the mid-fold invariant upgrades to the full optimality
invariant. -/
theorem opt_of_mid (grid : Grid) (start endC current : Coord) (s : AState)
    (hmid : MidInv grid start endC current s)
    (hnb : ∀ n ∈ getManhattanNeighbors grid current, NbrDone start s current n) :
    OptInv grid start endC s := by
  refine ⟨hmid.nodup_open, hmid.nodup_closed, hmid.disj, hmid.open_inb, hmid.closed_inb,
    hmid.g_start, hmid.start_mem, hmid.closed_opt, hmid.open_g, hmid.open_f, ?_,
    hmid.chain, hmid.par_closed2, hmid.par_start, hmid.end_not_closed⟩
  intro c hccl n hn
  by_cases hcc : c = current
  · rw [hcc] at hn ⊢
    exact hnb n hn
  · exact hmid.edge_old c hccl hcc n hn

/-- Arithmetic fact behind the fuel bound: on a non-degenerate grid the sum
of the dimensions is at most the cell count plus two. -/
theorem dims_helper (W H D : Nat) (hW : 1 ≤ W) (hH : 1 ≤ H) (hD : 1 ≤ D) :
    W + H + D ≤ W * H * D + 2 := by
  obtain ⟨w, rfl⟩ := Nat.exists_eq_add_of_le hW
  obtain ⟨h, rfl⟩ := Nat.exists_eq_add_of_le hH
  obtain ⟨d, rfl⟩ := Nat.exists_eq_add_of_le hD
  have hexp : (1 + w) * (1 + h) * (1 + d)
      = 1 + w + h + d + w * h + w * d + h * d + w * h * d := by ring
  rw [hexp]
  have h1 : 0 ≤ w * h := Nat.zero_le _
  have h2 : 0 ≤ w * d := Nat.zero_le _
  have h3 : 0 ≤ h * d := Nat.zero_le _
  have h4 : 0 ≤ w * h * d := Nat.zero_le _
  linarith

/-- The Manhattan distance between two in-bounds cells is smaller than the
number of cells of the grid. -/
theorem heuristic_lt_totalCells (grid : Grid) (a b : Coord)
    (ha : inBounds grid a = true) (hb : inBounds grid b = true) :
    heuristic a b < totalCells grid := by
  simp only [inBounds, decide_eq_true_eq] at ha hb
  obtain ⟨hax, hax2, hay, hay2, haz, haz2⟩ := ha
  obtain ⟨hbx, hbx2, hby, hby2, hbz, hbz2⟩ := hb
  have hW : 1 ≤ grid.width := by omega
  have hH : 1 ≤ grid.height := by omega
  have hD : 1 ≤ grid.depth := by omega
  have hh : heuristic a b + 3 ≤ grid.width + grid.height + grid.depth := by
    simp only [heuristic]
    omega
  have hd := dims_helper grid.width grid.height grid.depth hW hH hD
  simp only [totalCells]
  linarith

/-- Characterisation of one loop iteration on a state with a non-empty open
list: the popped node is either the goal (reconstruct) or gets expanded. -/
theorem aStarStep_eq (grid : Grid) (endC : Coord) (reconFuel : Nat) (s : AState)
    (hne : s.openSet ≠ []) :
    aStarStep grid endC reconFuel s =
      if s.openSet.getD (findLowestFIndex s.nd s.openSet) ⟨0, 0, 0⟩ = endC then
        .found (reconstructPath s.nd
          (s.openSet.getD (findLowestFIndex s.nd s.openSet) ⟨0, 0, 0⟩) reconFuel)
      else
        .next ((getManhattanNeighbors grid
            (s.openSet.getD (findLowestFIndex s.nd s.openSet) ⟨0, 0, 0⟩)).foldl
          (relaxNeighbor grid endC
            (s.openSet.getD (findLowestFIndex s.nd s.openSet) ⟨0, 0, 0⟩))
          { openSet := s.openSet.eraseIdx (findLowestFIndex s.nd s.openSet),
            closedSet := s.closedSet
              ++ [s.openSet.getD (findLowestFIndex s.nd s.openSet) ⟨0, 0, 0⟩],
            nd := s.nd }) := by
  obtain ⟨a, t, hos⟩ : ∃ a t, s.openSet = a :: t := by
    cases hos : s.openSet with
    | nil => exact absurd hos hne
    | cons a t => exact ⟨a, t, rfl⟩
  unfold aStarStep
  rw [hos]

/-- The length of a reconstructed path equals the recorded cost plus one,
provided the fuel exceeds that cost. -/
theorem reconstructPath_length (grid : Grid) (start endC : Coord) (s : AState)
    (hinv : OptInv grid start endC s) :
    ∀ (k : Nat) (c : Coord) (fuel : Nat), (s.nd c).g = some k →
    (c ∈ s.openSet ∨ c ∈ s.closedSet) → k < fuel →
    (reconstructPath s.nd c fuel).length = k + 1 := by
  intro k
  induction k using Nat.strong_induction_on with
  | _ k ih =>
    intro c fuel hg hmem hfuel
    cases fuel with
    | zero => omega
    | succ f =>
      cases hp : (s.nd c).parent with
      | none =>
        have hcs : c = start := by
          rcases hinv.par_start c hmem with h | h
          · exact h
          · exact absurd hp h
        have hk0 : k = 0 := by
          rw [hcs, hinv.g_start] at hg
          exact (Option.some.inj hg).symm
        simp only [reconstructPath, hp]
        simp [hk0]
      | some p =>
        obtain ⟨gp, gc, hgp, hgc, hsum⟩ := hinv.chain c p hp
        have hgc2 : gc = k := Option.some.inj (hgc.symm.trans hg)
        have hpcl : p ∈ s.closedSet := hinv.par_closed2 c p hp
        have hplen := ih gp (by omega) p f hgp (Or.inr hpcl) (by omega)
        simp only [reconstructPath, hp]
        rw [List.length_append, hplen]
        simp only [List.length_singleton]
        omega

/-- The freshly initialised search state satisfies the optimality invariant. -/
theorem initState_opt (grid : Grid) (start endC : Coord)
    (hs : inBounds grid start = true) :
    OptInv grid start endC (initState start endC) := by
  have hnone : ∀ c p, ((initState start endC).nd c).parent = some p → False := by
    intro c p hp
    have hp2 : ((updateNd (fun _ => initNodeData) start
        ⟨some 0, heuristic start endC, some (heuristic start endC), none⟩) c).parent
        = some p := hp
    rw [updateNd_apply] at hp2
    by_cases hcs : c = start
    · rw [if_pos hcs] at hp2
      simp at hp2
    · rw [if_neg hcs] at hp2
      simp [initNodeData] at hp2
  have hgs : ((initState start endC).nd start).g = some 0 := by
    show ((updateNd (fun _ => initNodeData) start
        ⟨some 0, heuristic start endC, some (heuristic start endC), none⟩) start).g
        = some 0
    rw [updateNd_apply, if_pos rfl]
  refine ⟨List.nodup_singleton start, List.nodup_nil, ?_, ?_, ?_, hgs, ?_, ?_, ?_, ?_,
    ?_, ?_, ?_, ?_, ?_⟩
  · intro c _ hc
    cases hc
  · intro c hc
    have hc2 : c ∈ [start] := hc
    rw [List.mem_singleton] at hc2
    rw [hc2]
    exact hs
  · intro c hc
    cases hc
  · exact Or.inl (List.mem_singleton.mpr rfl)
  · intro c hc
    cases hc
  · intro c hc
    have hc2 : c ∈ [start] := hc
    rw [List.mem_singleton] at hc2
    refine ⟨0, ?_, ?_⟩
    · rw [hc2]; exact hgs
    · rw [hc2, heuristic_self]
  · intro c hc
    have hc2 : c ∈ [start] := hc
    rw [List.mem_singleton] at hc2
    refine ⟨0, ?_, ?_⟩
    · rw [hc2]; exact hgs
    · rw [hc2]
      show ((updateNd (fun _ => initNodeData) start
          ⟨some 0, heuristic start endC, some (heuristic start endC), none⟩) start).f
          = some (0 + heuristic start endC)
      rw [updateNd_apply, if_pos rfl]
      simp
  · intro c hc
    cases hc
  · intro c p hp
    exact absurd hp (fun h => hnone c p h)
  · intro c p hp
    exact absurd hp (fun h => hnone c p h)
  · intro c hc
    rcases hc with h | h
    · have h2 : c ∈ [start] := h
      rw [List.mem_singleton] at h2
      exact Or.inl h2
    · cases h
  · intro hc
    cases hc

/-- Main loop lemma: on an all-unblocked grid, from any state satisfying the
optimality invariant and with enough fuel left over the remaining free cells,
the loop returns a path of length Manhattan-distance-plus-one. -/
theorem aStarLoop_opt (grid : Grid) (start endC : Coord)
    (hblocked : ∀ c, grid.blocked c = false)
    (hs_inb : inBounds grid start = true) (he_inb : inBounds grid endC = true) :
    ∀ (fuel : Nat) (s : AState), OptInv grid start endC s →
    totalCells grid < s.closedSet.length + fuel →
    (aStarLoop grid endC (totalCells grid + 1) fuel s).length
      = heuristic start endC + 1 := by
  intro fuel
  induction fuel with
  | zero =>
    intro s hinv hlen
    have := nodup_inbounds_length_le grid s.closedSet hinv.nodup_closed hinv.closed_inb
    omega
  | succ f ih =>
    intro s hinv hlen
    by_cases hne : s.openSet = []
    · exfalso
      obtain ⟨w, hw, -, -⟩ := frontier_covering grid start endC s hinv hs_inb
        (heuristic start endC) endC rfl he_inb hinv.end_not_closed
      rw [hne] at hw
      cases hw
    · rw [aStarLoop, aStarStep_eq grid endC _ s hne]
      by_cases hcur : s.openSet.getD (findLowestFIndex s.nd s.openSet) ⟨0, 0, 0⟩ = endC
      · rw [if_pos hcur]
        have hg := popped_g_optimal grid start endC s hinv hs_inb hne
        rw [hcur] at hg
        have hmem : endC ∈ s.openSet ∨ endC ∈ s.closedSet := by
          left
          rw [← hcur]
          exact getD_mem_of_lt (findLowestFIndex_spec s.nd s.openSet hne).1 _
        have hflt : heuristic start endC < totalCells grid + 1 :=
          Nat.lt_succ_of_lt (heuristic_lt_totalCells grid start endC hs_inb he_inb)
        have hlen2 := reconstructPath_length grid start endC s hinv
          (heuristic start endC) endC (totalCells grid + 1) hg hmem hflt
        show (reconstructPath s.nd
          (s.openSet.getD (findLowestFIndex s.nd s.openSet) ⟨0, 0, 0⟩)
          (totalCells grid + 1)).length = heuristic start endC + 1
        rw [hcur]
        exact hlen2
      · rw [if_neg hcur]
        rcases mid_of_pop grid start endC s hinv hs_inb hne with hmid | hEq
        · obtain ⟨hmidF, hdoneF, -⟩ := foldl_relax_mid grid start endC
            (s.openSet.getD (findLowestFIndex s.nd s.openSet) ⟨0, 0, 0⟩) hblocked
            (getManhattanNeighbors grid
              (s.openSet.getD (findLowestFIndex s.nd s.openSet) ⟨0, 0, 0⟩))
            { openSet := s.openSet.eraseIdx (findLowestFIndex s.nd s.openSet),
              closedSet := s.closedSet
                ++ [s.openSet.getD (findLowestFIndex s.nd s.openSet) ⟨0, 0, 0⟩],
              nd := s.nd }
            hmid (fun n hn => hn)
          have hinv2 := opt_of_mid grid start endC
            (s.openSet.getD (findLowestFIndex s.nd s.openSet) ⟨0, 0, 0⟩) _ hmidF hdoneF
          show (aStarLoop grid endC (totalCells grid + 1) f
            ((getManhattanNeighbors grid
              (s.openSet.getD (findLowestFIndex s.nd s.openSet) ⟨0, 0, 0⟩)).foldl
              (relaxNeighbor grid endC
                (s.openSet.getD (findLowestFIndex s.nd s.openSet) ⟨0, 0, 0⟩))
              { openSet := s.openSet.eraseIdx (findLowestFIndex s.nd s.openSet),
                closedSet := s.closedSet
                  ++ [s.openSet.getD (findLowestFIndex s.nd s.openSet) ⟨0, 0, 0⟩],
                nd := s.nd })).length = heuristic start endC + 1
          apply ih _ hinv2
          rw [foldl_relax_closedSet]
          show totalCells grid
            < (s.closedSet
              ++ [s.openSet.getD (findLowestFIndex s.nd s.openSet) ⟨0, 0, 0⟩]).length + f
          rw [List.length_append]
          simp only [List.length_singleton]
          omega
        · exact absurd hEq hcur

/-- On an all-unblocked grid with in-bounds endpoints, `aStar` returns a path
with exactly `heuristic start endC + 1` cells, i.e. exactly the Manhattan
distance many grid steps. -/
theorem aStar_optimal_length (grid : Grid) (start endC : Coord) (res : ℚ)
    (hblocked : ∀ c, grid.blocked c = false)
    (hs : inBounds grid start = true) (he : inBounds grid endC = true) :
    (aStar grid start endC res).length = heuristic start endC + 1 := by
  unfold aStar
  rw [if_pos (by rw [hs, he]; rfl)]
  exact aStarLoop_opt grid start endC hblocked hs he (totalCells grid + 1)
    (initState start endC) (initState_opt grid start endC hs)
    (by show totalCells grid < ([] : List Coord).length + (totalCells grid + 1); omega)

/-- **C4.** On every grid whose cells are all unblocked and for every
in-bounds start and end cell, the A* search (unit step cost, Manhattan
heuristic, 6-connected axis-aligned neighbours) returns a path whose number
of grid steps equals the Manhattan distance between start and end (i.e. the
returned cell list has Manhattan-distance-plus-one entries); in particular,
from `(0,0,0)` to `(3,0,0)` on the empty 4×1×1 grid it returns the 3-step
path through the four collinear cells, and the full routing pipeline reduces
it to exactly 2 waypoints. -/
theorem C4_astar_manhattan_optimal (grid : Grid) (start endC : Coord) (res : ℚ)
    (hblocked : ∀ c, grid.blocked c = false)
    (hs : inBounds grid start = true) (he : inBounds grid endC = true) :
    (aStar grid start endC res).length = heuristic start endC + 1
    ∧ aStar grid4 ⟨0, 0, 0⟩ ⟨3, 0, 0⟩ 10
        = [⟨0, 0, 0⟩, ⟨1, 0, 0⟩, ⟨2, 0, 0⟩, ⟨3, 0, 0⟩]
    ∧ routeWire ⟨-15, 5, -5⟩ ⟨15, 5, -5⟩ ctx40
        = [⟨⟨-20, 0, -5⟩, false⟩, ⟨⟨10, 0, -5⟩, false⟩] :=
  ⟨aStar_optimal_length grid start endC res hblocked hs he,
    aStar_grid4_path, routeWire_ctx40⟩

/-- Witness for C4 at the concrete 4×1×1 empty grid: the hypotheses hold and
the path from the origin to `(3,0,0)` has `3 + 1` cells. -/
theorem C4_astar_manhattan_optimal_witness :
    (∀ c, grid4.blocked c = false)
    ∧ inBounds grid4 ⟨0, 0, 0⟩ = true ∧ inBounds grid4 ⟨3, 0, 0⟩ = true
    ∧ (aStar grid4 ⟨0, 0, 0⟩ ⟨3, 0, 0⟩ 10).length
        = heuristic ⟨0, 0, 0⟩ ⟨3, 0, 0⟩ + 1 :=
  ⟨fun _ => rfl, by decide, by decide,
    (C4_astar_manhattan_optimal grid4 ⟨0, 0, 0⟩ ⟨3, 0, 0⟩ 10 (fun _ => rfl)
      (by decide) (by decide)).1⟩
